import Mathlib

/-!
Verification development for the `tryhard` tool (griesemer/tryhard).

The Go sources are embedded shallowly:

* `go/ast` expression and statement nodes become the mutually inductive
  types `Expr`, `Field`, `FieldList`, `ExprList` and `Stmt`, `StmtList`.
  Source positions and attached comments are metadata that none of the
  modelled functions inspect, with one exception: `ast.CallExpr.Ellipsis`
  is a `token.Pos` that `equal` compares verbatim, so it is kept as a
  `Nat` field (`0` plays the role of `token.NoPos`).  `ast.Ident` fields
  that are always plain identifiers (`SelectorExpr.Sel`, `Field.Names`)
  are modelled by their name strings, since every modelled operation
  only ever reads the name.  A function literal body is never read by
  any function modelled here (`equal` rejects function literals outright
  and the walker never descends into expressions), so `funcLit` carries
  only its type.
* `token.Token` values become `Nat` constants with the numeric values of
  the `go/token` enumeration; only `ASSIGN`, `DEFINE` and `NEQ` are ever
  compared against.
* Go `nil` pointers/interfaces become `Option`.
* The run-wide counters of `stats.go` (`count`, `counts`, `posLists`)
  become the explicit state `GState` threaded through the walker.
  `posLists` records `n.Pos()` for the reported node `n`; positions being
  metadata, the model records the node itself in place of its position.
* `strconv.ParseInt`/`strconv.ParseFloat` are external standard-library
  collaborators; they are modelled at their interface (see `parseInt0`
  and `parseFloatIsZero`).
-/

namespace Tryhard

/-! ### go/token -/

/-- `token.ASSIGN` (`=`), value 42 in the `go/token` enumeration. -/
def tokASSIGN : Nat := 42

/-- `token.DEFINE` (`:=`), value 47 in the `go/token` enumeration. -/
def tokDEFINE : Nat := 47

/-- `token.NEQ` (`!=`), value 44 in the `go/token` enumeration. -/
def tokNEQ : Nat := 44

/-- The literal kinds of `ast.BasicLit.Kind` (`token.INT` etc.). -/
inductive LitKind where
  | INT
  | FLOAT
  | IMAG
  | CHAR
  | STRING
deriving DecidableEq, Repr

/-! ### go/ast expressions -/

mutual

/-- `ast.Expr`: the expression variants read by `equal`, `isZero` and the
walker.  `funcLit` keeps only its type: no modelled function reads a
function literal body. -/
inductive Expr where
  | ident (name : String)
  | ellipsis (elt : Option Expr)
  | basicLit (kind : LitKind) (value : String)
  | funcLit (ftype : Expr)
  | compositeLit (typ : Option Expr) (elts : ExprList) (incomplete : Bool)
  | parenExpr (x : Expr)
  | selectorExpr (x : Expr) (sel : String)
  | indexExpr (x : Expr) (idx : Expr)
  | sliceExpr (x : Expr) (low high maxi : Option Expr) (slice3 : Bool)
  | typeAssertExpr (x : Expr) (typ : Option Expr)
  | callExpr (fn : Expr) (args : ExprList) (ellipsisPos : Nat)
  | starExpr (x : Expr)
  | unaryExpr (op : Nat) (x : Expr)
  | binaryExpr (x : Expr) (op : Nat) (y : Expr)
  | keyValueExpr (key : Expr) (val : Expr)
  | arrayType (len : Option Expr) (elt : Expr)
  | structType (fields : Option FieldList) (incomplete : Bool)
  | funcType (params : Option FieldList) (results : Option FieldList)
  | interfaceType (methods : Option FieldList) (incomplete : Bool)
  | mapType (key : Expr) (val : Expr)
  | chanType (dir : Nat) (val : Expr)
deriving Repr

/-- `ast.Field`: names (modelled by their strings), type, tag. -/
inductive Field where
  | mk (names : List String) (typ : Option Expr) (tag : Option Expr)
deriving Repr

/-- The `List` field of a non-nil `ast.FieldList`. -/
inductive FieldList where
  | nil
  | cons (f : Field) (rest : FieldList)
deriving Repr

/-- A `[]ast.Expr` slice in a position the walker or `equal` recurses
through. -/
inductive ExprList where
  | nil
  | cons (x : Expr) (rest : ExprList)
deriving Repr

end

/-- Length of an `ExprList` (`len` on the Go slice). -/
def ExprList.length : ExprList → Nat
  | .nil => 0
  | .cons _ rest => 1 + rest.length

/-- Build an `ExprList` from a Lean list (notation helper only). -/
def ExprList.ofList : List Expr → ExprList
  | [] => .nil
  | x :: rest => .cons x (ExprList.ofList rest)

/-! ### equal (structural equality, from the repository file defining
`equal`, `equalLists`, `equalFields`, `equalIdents`) -/

/-- `equalIdents` from the source compares two `[]*ast.Ident` slices
pairwise with `equal`; on identifiers `equal` is name equality, so the
model compares the name strings pairwise. -/
def equalIdents : List String → List String → Bool
  | [], [] => true
  | x :: xs, y :: ys => x == y && equalIdents xs ys
  | _, _ => false

mutual

/-- `equal` from the source: structural equality of expressions.
Conservative: unrecognized kinds (function literals) and mismatched
kinds fall through to the final `return false`.  Nullable children
(`ast.Expr` interface values that may be nil) are compared by the
inlined option match, which is the `case nil` arm of the Go `equal`
(nil equals only nil; on a non-nil/nil mix the type assertion in the
kind arm fails and the function returns false). -/
def equal (x y : Expr) : Bool :=
  match x with
  | .ident n =>
      match y with
      | .ident m => n == m
      | _ => false
  | .ellipsis elt =>
      match y with
      | .ellipsis elt2 =>
          (match elt, elt2 with
           | none, none => true
           | some a, some b => equal a b
           | _, _ => false)
      | _ => false
  | .basicLit k v =>
      match y with
      | .basicLit k2 v2 => k == k2 && v == v2
      | _ => false
  | .funcLit _ => false
  | .compositeLit t elts inc =>
      match y with
      | .compositeLit t2 elts2 inc2 =>
          !inc && !inc2 &&
          (match t, t2 with
           | none, none => true
           | some a, some b => equal a b
           | _, _ => false) &&
          equalLists elts elts2
      | _ => false
  | .parenExpr e =>
      match y with
      | .parenExpr e2 => equal e e2
      | _ => false
  | .selectorExpr e sel =>
      match y with
      | .selectorExpr e2 sel2 => equal e e2 && sel == sel2
      | _ => false
  | .indexExpr e i =>
      match y with
      | .indexExpr e2 i2 => equal e e2 && equal i i2
      | _ => false
  | .sliceExpr e lo hi mx s3 =>
      match y with
      | .sliceExpr e2 lo2 hi2 mx2 s32 =>
          equal e e2 &&
          (match lo, lo2 with
           | none, none => true
           | some a, some b => equal a b
           | _, _ => false) &&
          (match hi, hi2 with
           | none, none => true
           | some a, some b => equal a b
           | _, _ => false) &&
          (match mx, mx2 with
           | none, none => true
           | some a, some b => equal a b
           | _, _ => false) &&
          s3 == s32
      | _ => false
  | .typeAssertExpr e t =>
      match y with
      | .typeAssertExpr e2 t2 =>
          equal e e2 &&
          (match t, t2 with
           | none, none => true
           | some a, some b => equal a b
           | _, _ => false)
      | _ => false
  | .callExpr f args ell =>
      match y with
      | .callExpr f2 args2 ell2 => equal f f2 && equalLists args args2 && ell == ell2
      | _ => false
  | .starExpr e =>
      match y with
      | .starExpr e2 => equal e e2
      | _ => false
  | .unaryExpr op e =>
      match y with
      | .unaryExpr op2 e2 => op == op2 && equal e e2
      | _ => false
  | .binaryExpr a op b =>
      match y with
      | .binaryExpr a2 op2 b2 => equal a a2 && op == op2 && equal b b2
      | _ => false
  | .keyValueExpr k v =>
      match y with
      | .keyValueExpr k2 v2 => equal k k2 && equal v v2
      | _ => false
  | .arrayType len elt =>
      match y with
      | .arrayType len2 elt2 =>
          (match len, len2 with
           | none, none => true
           | some a, some b => equal a b
           | _, _ => false) &&
          equal elt elt2
      | _ => false
  | .structType fs inc =>
      match y with
      | .structType fs2 inc2 =>
          !inc && !inc2 &&
          (match fs, fs2 with
           | none, none => true
           | some a, some b => equalFieldLists a b
           | _, _ => false)
      | _ => false
  | .funcType ps rs =>
      match y with
      | .funcType ps2 rs2 =>
          (match ps, ps2 with
           | none, none => true
           | some a, some b => equalFieldLists a b
           | _, _ => false) &&
          (match rs, rs2 with
           | none, none => true
           | some a, some b => equalFieldLists a b
           | _, _ => false)
      | _ => false
  | .interfaceType ms inc =>
      match y with
      | .interfaceType ms2 inc2 =>
          !inc && !inc2 &&
          (match ms, ms2 with
           | none, none => true
           | some a, some b => equalFieldLists a b
           | _, _ => false)
      | _ => false
  | .mapType k v =>
      match y with
      | .mapType k2 v2 => equal k k2 && equal v v2
      | _ => false
  | .chanType d v =>
      match y with
      | .chanType d2 v2 => d == d2 && equal v v2
      | _ => false
termination_by structural x

/-- `equalLists` from the source: equal length, then pairwise `equal`. -/
def equalLists (x y : ExprList) : Bool :=
  match x, y with
  | .nil, .nil => true
  | .cons a xs, .cons b ys => equal a b && equalLists xs ys
  | _, _ => false
termination_by structural x

/-- The element loop of `equalFields` on two non-nil field lists:
names, type and tag per field (the nil cases of `equalFields` are the
inlined option matches at its call sites in `equal`). -/
def equalFieldLists (x y : FieldList) : Bool :=
  match x, y with
  | .nil, .nil => true
  | .cons (.mk ns t tg) xs, .cons (.mk ns2 t2 tg2) ys =>
      equalIdents ns ns2 &&
      (match t, t2 with
       | none, none => true
       | some a, some b => equal a b
       | _, _ => false) &&
      (match tg, tg2 with
       | none, none => true
       | some a, some b => equal a b
       | _, _ => false) &&
      equalFieldLists xs ys
  | _, _ => false
termination_by structural x

end

/-! ### isZero and its strconv collaborators -/

/-- Go `lower(c) = c | ('x' - 'X')` from `strconv`. -/
def lowerByte (c : Char) : Nat := c.toNat ||| 0x20

/-- Decimal digit test on a byte. -/
def isDecDigit (c : Char) : Bool := 48 ≤ c.toNat && c.toNat ≤ 57

/-- Hexadecimal digit test on a byte. -/
def isHexDigit (c : Char) : Bool :=
  isDecDigit c || (97 ≤ lowerByte c && lowerByte c ≤ 102)

/-- The scanning loop of the `strconv` function `underscoreOK`: `saw` is the class
of the previous character (`^` beginning, `0` digit or base prefix,
`_` underscore, `!` other). -/
def underscoreOKLoop (hex : Bool) (saw : Char) : List Char → Bool
  | [] => saw != '_'
  | c :: rest =>
      if isDecDigit c || (hex && 97 ≤ lowerByte c && lowerByte c ≤ 102) then
        underscoreOKLoop hex '0' rest
      else if c == '_' then
        if saw != '0' then false else underscoreOKLoop hex '_' rest
      else if saw == '_' then false
      else underscoreOKLoop hex '!' rest

/-- `strconv.underscoreOK`: underscores must separate successive digits
(a base prefix counts as a digit). -/
def underscoreOK (s : List Char) : Bool :=
  let s1 := match s with
    | c :: rest => if c == '-' || c == '+' then rest else s
    | [] => s
  match s1 with
  | c0 :: c1 :: rest =>
      if c0 == '0' && (lowerByte c1 == 98 || lowerByte c1 == 111 || lowerByte c1 == 120) then
        underscoreOKLoop (lowerByte c1 == 120) '0' rest
      else underscoreOKLoop false '^' s1
  | _ => underscoreOKLoop false '^' s1

/-- Digit-accumulation loop of `strconv.ParseUint` with `base0 = true`:
skips underscores (checked afterwards by `underscoreOK`), rejects
non-digits and digits `≥ base`; returns the value and whether an
underscore was seen.  Overflow is checked against the 64-bit bound by
the caller (Go checks incrementally; both yield a non-nil error). -/
def puLoop (base : Nat) : List Char → Nat → Bool → Option (Nat × Bool)
  | [], n, us => some (n, us)
  | c :: rest, n, us =>
      if c == '_' then puLoop base rest n true
      else if isDecDigit c then
        let d := c.toNat - 48
        if d ≥ base then none else puLoop base rest (n * base + d) us
      else if 97 ≤ lowerByte c && lowerByte c ≤ 122 then
        let d := lowerByte c - 97 + 10
        if d ≥ base then none else puLoop base rest (n * base + d) us
      else none

/-- `strconv.ParseUint(s, 0, 64)`: base prefix detection (`0b`, `0o`,
`0x`, leading `0` means octal), digit loop, underscore validation,
64-bit range check.  `none` models a non-nil error. -/
def parseUint0 (l : List Char) : Option Nat :=
  match l with
  | [] => none
  | _ =>
      let pr : Nat × List Char :=
        match l with
        | '0' :: c1 :: c2 :: rest =>
            if lowerByte c1 == 98 then (2, c2 :: rest)
            else if lowerByte c1 == 111 then (8, c2 :: rest)
            else if lowerByte c1 == 120 then (16, c2 :: rest)
            else (8, l)
        | '0' :: _ => (8, l)
        | _ => (10, l)
      match puLoop pr.1 pr.2 0 false with
      | none => none
      | some (n, us) =>
          if us && !underscoreOK l then none
          else if n ≥ 2 ^ 64 then none
          else some n

/-- `strconv.ParseInt(s, 0, 64)`: sign handling around `ParseUint`,
then the signed 64-bit range check.  `none` models a non-nil error. -/
def parseInt0 (s : String) : Option Int :=
  match s.toList with
  | [] => none
  | c :: rest =>
      let pr : Bool × List Char :=
        if c == '+' then (false, rest)
        else if c == '-' then (true, rest)
        else (false, c :: rest)
      match parseUint0 pr.2 with
      | none => none
      | some un =>
          if !pr.1 && un ≥ 2 ^ 63 then none
          else if pr.1 && un > 2 ^ 63 then none
          else some (if pr.1 then -(un : Int) else (un : Int))

/-- Digit scanner for the float model: consumes decimal (or hex) digits
and underscores, returning the digit count, whether every digit was
`0`, whether an underscore was seen, and the unconsumed rest. -/
def scanDigs (hex : Bool) : List Char → Nat → Bool → Bool → Nat × Bool × Bool × List Char
  | [], cnt, zero, us => (cnt, zero, us, [])
  | c :: rest, cnt, zero, us =>
      if c == '_' then scanDigs hex rest cnt zero true
      else if (if hex then isHexDigit c else isDecDigit c) then
        scanDigs hex rest (cnt + 1) (zero && c == '0') us
      else (cnt, zero, us, c :: rest)

/-- Exponent part of the float model: an optional sign then at least
one decimal digit (underscores allowed), consuming the whole rest. -/
def scanExponent (l : List Char) : Option Bool :=
  let body := match l with
    | c :: rest => if c == '+' || c == '-' then rest else l
    | [] => l
  match scanDigs false body 0 true false with
  | (cnt, _, us, rest) => if cnt ≥ 1 && rest.isEmpty then some us else none

/-- Modelled from the spec: `strconv.ParseFloat` is an external
standard-library collaborator (its source is not part of this
repository), so it is modelled at its interface.  `parseFloatIsZero v`
captures exactly the observation the repository makes of it, namely
`z, err := strconv.ParseFloat(v, 64); err == nil && z == 0`: this holds
iff `v` is syntactically a valid Go floating-point literal text and all
of its mantissa digits are `0` (a zero mantissa parses exactly to zero
with a nil error; a non-zero mantissa either yields a non-zero value or
under/overflows, which sets a range error).  The syntax accepted here
follows Go: optional sign; either `0x`/`0X`, hex mantissa digits with
one optional dot and a mandatory `p`-exponent, or decimal mantissa
digits with one optional dot and an optional `e`-exponent; at least one
mantissa digit; underscores must separate digits (per `underscoreOK`).
The special spellings `inf`/`infinity`/`nan` parse with a nil error but
are never zero, so they are covered by the `false` outcome. -/
def parseFloatIsZero (s : String) : Bool :=
  let l := s.toList
  let body := match l with
    | c :: rest => if c == '+' || c == '-' then rest else l
    | [] => l
  let hex : Bool := match body with
    | '0' :: c1 :: _ => lowerByte c1 == 120
    | _ => false
  let mant := if hex then body.drop 2 else body
  match scanDigs hex mant 0 true false with
  | (cnt1, zero1, us1, rest1) =>
      let fr : Nat × Bool × Bool × List Char :=
        match rest1 with
        | '.' :: rest => scanDigs hex rest 0 true false
        | _ => (0, true, false, rest1)
      match fr with
      | (cnt2, zero2, us2, rest2) =>
          if cnt1 + cnt2 == 0 then false
          else
            let ex : Option (Option Bool) :=
              if hex then
                match rest2 with
                | c :: rest3 =>
                    if lowerByte c == 112 then
                      match scanExponent rest3 with
                      | some us => some (some us)
                      | none => none
                    else none
                | [] => none
              else
                match rest2 with
                | [] => some none
                | c :: rest3 =>
                    if lowerByte c == 101 then
                      match scanExponent rest3 with
                      | some us => some (some us)
                      | none => none
                    else none
            match ex with
            | none => false
            | some usE =>
                let sawU := us1 || us2 || usE.getD false
                if sawU && !underscoreOK l then false
                else zero1 && zero2

/-- `isZero` from try.go: is the expression a zero value. -/
def isZero (x : Expr) : Bool :=
  match x with
  | .ident n => n == "nil"
  | .basicLit k v =>
      if v.length == 0 then false
      else
        match k with
        | .INT =>
            match parseInt0 v with
            | some z => z == 0
            | none => false
        | .FLOAT => parseFloatIsZero v
        | .IMAG => parseFloatIsZero (v.dropRight 1)
        | .CHAR => v == "0"
        | .STRING => v == "\"\"" || v == "``"
  | .compositeLit _ elts _ => elts.length == 0
  | _ => false

/-- `isName` from try.go: is `x` an identifier with the given name. -/
def isName (x : Expr) (name : String) : Bool :=
  match x with
  | .ident n => n == name
  | _ => false

/-- `isCall` from try.go: is `x` a call expression. -/
def isCall (x : Expr) : Bool :=
  match x with
  | .callExpr .. => true
  | _ => false

/-! ### go/ast statements -/

mutual

/-- `ast.Stmt`: the statement variants distinguished by the walker
`tryBlock`.  Statements it treats uniformly through the default of its
type switch (declarations, go, defer, labeled statements, ...) are
collapsed into `otherStmt`. -/
inductive Stmt where
  | assignStmt (lhs : List Expr) (tok : Nat) (rhs : List Expr)
  | exprStmt (x : Expr)
  | returnStmt (results : List Expr)
  | blockStmt (body : StmtList)
  | forStmt (ini : Option Stmt) (cond : Option Expr) (post : Option Stmt) (body : StmtList)
  | rangeStmt (key : Option Expr) (val : Option Expr) (tok : Nat) (x : Expr) (body : StmtList)
  | selectStmt (body : StmtList)
  | switchStmt (ini : Option Stmt) (tag : Option Expr) (body : StmtList)
  | typeSwitchStmt (ini : Option Stmt) (assignX : Stmt) (body : StmtList)
  | ifStmt (ini : Option Stmt) (cond : Expr) (body : StmtList) (els : Option Stmt)
  | caseClause (exprs : List Expr) (body : StmtList)
  | commClause (comm : Option Stmt) (body : StmtList)
  | otherStmt (tag : Nat)
deriving Repr

/-- The `List` of an `ast.BlockStmt` (a `[]ast.Stmt` slice). -/
inductive StmtList where
  | nil
  | cons (s : Stmt) (rest : StmtList)
deriving Repr

end

/-- Length of a `StmtList` (`len` on the Go slice). -/
def StmtList.length : StmtList → Nat
  | .nil => 0
  | .cons _ rest => 1 + rest.length

/-- Build a `StmtList` from a Lean list (notation helper only). -/
def StmtList.ofList : List Stmt → StmtList
  | [] => .nil
  | s :: rest => .cons s (StmtList.ofList rest)

/-! ### stats.go: classification state -/

/-- The `Kind` taxonomy.  stats.go under src declares `Func` through
`TryCand`; try.go additionally references `SingleStmt` and `SharedLast`,
whose declarations live in the revision of stats.go that accompanies
try.go (not included under src) and are reconstructed here from their
uses in try.go. -/
inductive Kind where
  | Func
  | FuncError
  | Stmt
  | If
  | IfErr
  | NonErrName
  | ReturnErr
  | ReturnExpr
  | SingleStmt
  | ComplexBlock
  | HasElse
  | TryCand
  | SharedLast
deriving DecidableEq, Repr

/-- An `ast.Node` passed to `count`: a statement, an expression, or a
block.  stats.go records `n.Pos()`; positions being pure metadata of
the node, the model records the node itself as the position proxy. -/
inductive PosNode where
  | stmtNode (s : Stmt)
  | exprNode (e : Expr)
  | blockNode (b : StmtList)
deriving Repr

/-- The run-wide state of stats.go: `counts` and `posLists`, plus `oob`,
which models the Go runtime bounds check on the slice store
`b.List[i-1]` in `tryBlock` (it becomes true iff that store is ever
executed with `i = 0`; it influences nothing else). -/
structure GState where
  counts : Kind → Nat
  recs : Kind → List PosNode
  oob : Bool

/-- `count` from stats.go: increment the counter of `k` and, when a
node is supplied, append it to the recorded list of `k`. -/
def count (k : Kind) (n : Option PosNode) (st : GState) : GState :=
  { counts := fun k2 => if k2 = k then st.counts k2 + 1 else st.counts k2
    recs :=
      match n with
      | none => st.recs
      | some nd => fun k2 => if k2 = k then st.recs k2 ++ [nd] else st.recs k2
    oob := st.oob }

/-- The all-zero initial state of the counters. -/
def st0 : GState := ⟨fun _ => 0, fun _ => [], false⟩

/-! ### try.go: matcher and rewriter -/

/-- The relevant configuration: the `-r` flag (`*rewrite`) and the
`-err` flag (`*varname`; the empty string permits any name). -/
structure Config where
  rewrite : Bool
  varname : String

/-- `funcInfo` from try.go: per-function state.  `sharedLast = none`
models the invalidated (nil) slice, `some []` the valid-but-empty
marker installed by `tryFile`. -/
structure FuncInfo where
  modified : Bool
  sharedLast : Option (List Expr)

/-- `isErrTest` from try.go.  The Go function takes `*errname` as an
out-parameter; the model returns the pair (result, updated errname). -/
def isErrTest (x : Expr) (errname : String) : Bool × String :=
  match x with
  | .binaryExpr bx op byy =>
      if op == tokNEQ && isName byy "nil" then
        match bx with
        | .ident ename =>
            if errname == "" then (true, ename)
            else (ename == errname, errname)
        | _ => (false, errname)
      else (false, errname)
  | _ => (false, errname)

/-- `isErrAssign` from try.go.  The argument is an `Option` because the
Go caller may pass a nil previous statement or a nil `s.Init`; the type
assertion on nil fails, so `none` is never an error assignment. -/
def isErrAssign (s : Option Stmt) (errname : String) : Bool :=
  match s with
  | some (.assignStmt lhs tok rhs) =>
      if tok != tokASSIGN && tok != tokDEFINE then false
      else
        (match lhs.getLast? with
         | some lastT => isName lastT errname
         | none => false) &&
        (match rhs with
         | [r] => isCall r
         | _ => false)
  | _ => false

/-- `isBlanks` from try.go: the list is empty or holds only blank
identifiers. -/
def isBlanks : List Expr → Bool
  | [] => true
  | x :: rest =>
      (match x with
       | .ident n => n == "_"
       | _ => false) &&
      isBlanks rest

/-- `rewriteAssign` from try.go.  The `end` position parameter of the Go
function only feeds the `Rparen` position of the synthetic call and is
dropped with the other position metadata; the synthetic `try(...)` call
gets `Ellipsis = token.NoPos = 0`, the zero value of the composite
literal in the source.  The two fallthrough arms returning `s`
correspond to runtime panics in Go (failed type assertion and
out-of-range index); they are unreachable from the call sites, which
only pass statements satisfying `isErrAssign`. -/
def rewriteAssign (s : Stmt) : Stmt :=
  match s with
  | .assignStmt lhsFull tok rhs =>
      match rhs with
      | r0 :: rrest =>
          let lhs := lhsFull.dropLast
          let rhs0 := Expr.callExpr (.ident "try") (.cons r0 .nil) 0
          if isBlanks lhs then .exprStmt rhs0
          else .assignStmt lhs tok (rhs0 :: rrest)
      | [] => s
  | _ => s

/-- `isReturn` from try.go: the block holds a single return statement
that is naked, or returns zero values followed by one last expression. -/
def isReturn (b : StmtList) : Bool × Option Expr :=
  match b with
  | .cons (.returnStmt results) .nil =>
      (match results.getLast? with
       | some lastR =>
           if results.dropLast.all (fun x => isZero x) then (true, some lastR)
           else (false, none)
       | none => (true, none))
  | _ => (false, none)

/-- `isTryHandler` from try.go, with its side effects on the counters
and on `fi.sharedLast` made explicit: returns (ok, updated funcInfo,
updated counters). -/
def isTryHandler (fi : FuncInfo) (st : GState) (body : StmtList) (els : Option Stmt)
    (errname : String) : Bool × FuncInfo × GState :=
  let ir := isReturn body
  let st1 :=
    if !ir.1 then
      count (if body.length > 1 then Kind.ComplexBlock else Kind.SingleStmt)
        (some (.blockNode body)) st
    else st
  let step2 : Bool × FuncInfo × GState :=
    match ir.2 with
    | some lastE =>
        if !(isName lastE errname) then
          let st2 := count .ReturnExpr (some (.blockNode body)) st1
          let fi2 :=
            match fi.sharedLast with
            | none => fi
            | some [] => { fi with sharedLast := some [lastE] }
            | some (e0 :: es) =>
                if equal lastE e0 then { fi with sharedLast := some ((e0 :: es) ++ [lastE]) }
                else { fi with sharedLast := none }
          (false, fi2, st2)
        else (ir.1, { fi with sharedLast := none }, st1)
    | none => (ir.1, { fi with sharedLast := none }, st1)
  match els with
  | some e => (false, step2.2.1, count .HasElse (some (.stmtNode e)) step2.2.2)
  | none => step2

/-- The state of the statement loop of `tryBlock` after processing a
prefix of the block: the slot list built so far (`none` is a
tombstoned slot, Go nil), the `dirty` flag, the counters, the
per-function info, and the previous statement `p`. -/
structure LoopRes where
  slots : List (Option Stmt)
  dirty : Bool
  st : GState
  fi : FuncInfo
  prev : Option Stmt

/-- The compaction pass at the end of `tryBlock`: keep the non-nil
slots in order.  Go runs it only under `dirty`; when `dirty` is false
the loop has written no nil slot (lemma `tryLoop_slots_isSome` below),
so running it unconditionally is an equivalent embedding that also
converts the slot list back into a `StmtList`. -/
def compact : List (Option Stmt) → StmtList
  | [] => .nil
  | some s :: rest => .cons s (compact rest)
  | none :: rest => compact rest

mutual

/-- The walk of the else branch of a conditional: try.go recurses into
`s.Else` exactly when it is a plain block (`if s, ok :=
s.Else.(*ast.BlockStmt); ok { fi.tryBlock(s) }`); any other else (an
else-if chain, or no else) is left alone.  Returns the (possibly
walked) else statement with the updated state. -/
def tryElse (cfg : Config) (st : GState) (fi : FuncInfo) (els : Option Stmt) :
    Option Stmt × GState × FuncInfo :=
  match els with
  | some (.blockStmt bl) =>
      let r := tryLoop cfg st fi none [] false bl
      (some (Stmt.blockStmt (compact r.slots)), r.st, r.fi)
  | _ => (els, st, fi)

/-- The statement loop of `tryBlock` from try.go, one iteration per
statement.  Child blocks are walked by the recursive call followed by
`compact`, which is exactly `tryBlock` on the child (Go mutates the
child block in place, compacting it before returning).  `prev` is `p`,
`acc` holds the slots `b.List[0..i-1]`, and the store `b.List[i-1] = x`
becomes replacing the last element of `acc` (recording `oob` if `acc`
is empty, where Go would panic). -/
def tryLoop (cfg : Config) (st : GState) (fi : FuncInfo) (prev : Option Stmt)
    (acc : List (Option Stmt)) (dirty : Bool) : StmtList → LoopRes
  | .nil => ⟨acc, dirty, st, fi, prev⟩
  | .cons s rest =>
      let st1 := count .Stmt none st
      match s with
      | .blockStmt body =>
          let r := tryLoop cfg st1 fi none [] false body
          let s1 := Stmt.blockStmt (compact r.slots)
          tryLoop cfg r.st r.fi (some s1) (acc ++ [some s1]) dirty rest
      | .forStmt ini cond post body =>
          let r := tryLoop cfg st1 fi none [] false body
          let s1 := Stmt.forStmt ini cond post (compact r.slots)
          tryLoop cfg r.st r.fi (some s1) (acc ++ [some s1]) dirty rest
      | .rangeStmt key val tok x body =>
          let r := tryLoop cfg st1 fi none [] false body
          let s1 := Stmt.rangeStmt key val tok x (compact r.slots)
          tryLoop cfg r.st r.fi (some s1) (acc ++ [some s1]) dirty rest
      | .selectStmt body =>
          let r := tryLoop cfg st1 fi none [] false body
          let s1 := Stmt.selectStmt (compact r.slots)
          tryLoop cfg r.st r.fi (some s1) (acc ++ [some s1]) dirty rest
      | .switchStmt ini tag body =>
          let r := tryLoop cfg st1 fi none [] false body
          let s1 := Stmt.switchStmt ini tag (compact r.slots)
          tryLoop cfg r.st r.fi (some s1) (acc ++ [some s1]) dirty rest
      | .typeSwitchStmt ini ax body =>
          let r := tryLoop cfg st1 fi none [] false body
          let s1 := Stmt.typeSwitchStmt ini ax (compact r.slots)
          tryLoop cfg r.st r.fi (some s1) (acc ++ [some s1]) dirty rest
      | .ifStmt ini cond body els =>
          let st2 := count .If none st1
          let rb := tryLoop cfg st2 fi none [] false body
          let body1 := compact rb.slots
          let e3 := tryElse cfg rb.st rb.fi els
          let els1 := e3.1
          let st3 := e3.2.1
          let fi3 := e3.2.2
          let s1 := Stmt.ifStmt ini cond body1 els1
          let et := isErrTest cond cfg.varname
          if !et.1 then
            tryLoop cfg st3 fi3 (some s1) (acc ++ [some s1]) dirty rest
          else
            let errname := et.2
            let st4 := count .IfErr none st3
            if ini.isNone && isErrAssign prev errname then
              let h := isTryHandler fi3 st4 body1 els1 errname
              if h.1 then
                let stA := count .TryCand (some (.stmtNode s1)) h.2.2
                let stB := if errname != "err" then count .NonErrName (some (.exprNode cond)) stA else stA
                if cfg.rewrite then
                  let stC := if acc.isEmpty then { stB with oob := true } else stB
                  tryLoop cfg stC { h.2.1 with modified := true } (some s1)
                    (acc.dropLast ++ [some (rewriteAssign (prev.getD (.otherStmt 0)))] ++ [none])
                    true rest
                else
                  tryLoop cfg stB h.2.1 (some s1) (acc ++ [some s1]) dirty rest
              else
                tryLoop cfg h.2.2 h.2.1 (some s1) (acc ++ [some s1]) dirty rest
            else if isErrAssign ini errname then
              let h := isTryHandler fi3 st4 body1 els1 errname
              if h.1 then
                let stA := count .TryCand (some (.stmtNode s1)) h.2.2
                let stB := if errname != "err" then count .NonErrName (some (.exprNode cond)) stA else stA
                if cfg.rewrite then
                  tryLoop cfg stB { h.2.1 with modified := true } (some s1)
                    (acc ++ [some (rewriteAssign (ini.getD (.otherStmt 0)))]) dirty rest
                else
                  tryLoop cfg stB h.2.1 (some s1) (acc ++ [some s1]) dirty rest
              else
                tryLoop cfg h.2.2 h.2.1 (some s1) (acc ++ [some s1]) dirty rest
            else
              tryLoop cfg st4 fi3 (some s1) (acc ++ [some s1]) dirty rest
      | .assignStmt lhs tok rhs =>
          let s1 := Stmt.assignStmt lhs tok rhs
          tryLoop cfg st1 fi (some s1) (acc ++ [some s1]) dirty rest
      | .exprStmt x =>
          let s1 := Stmt.exprStmt x
          tryLoop cfg st1 fi (some s1) (acc ++ [some s1]) dirty rest
      | .returnStmt results =>
          let s1 := Stmt.returnStmt results
          tryLoop cfg st1 fi (some s1) (acc ++ [some s1]) dirty rest
      | .caseClause exprs body =>
          let s1 := Stmt.caseClause exprs body
          tryLoop cfg st1 fi (some s1) (acc ++ [some s1]) dirty rest
      | .commClause comm body =>
          let s1 := Stmt.commClause comm body
          tryLoop cfg st1 fi (some s1) (acc ++ [some s1]) dirty rest
      | .otherStmt tag =>
          let s1 := Stmt.otherStmt tag
          tryLoop cfg st1 fi (some s1) (acc ++ [some s1]) dirty rest

end

/-- `tryBlock` from try.go: run the loop over the block, then the
compaction pass. -/
def tryBlock (cfg : Config) (st : GState) (fi : FuncInfo) (b : StmtList) :
    StmtList × GState × FuncInfo :=
  let r := tryLoop cfg st fi none [] false b
  (compact r.slots, r.st, r.fi)

/-! ### try.go: per-file walking -/

/-- `ast.FuncType`: parameter and result field lists (nil-able). -/
structure FuncType where
  params : Option FieldList
  results : Option FieldList

/-- Last element of a `FieldList`. -/
def FieldList.getLast? : FieldList → Option Field
  | .nil => none
  | .cons f .nil => some f
  | .cons _ (FieldList.cons g rest) => FieldList.getLast? (.cons g rest)

/-- `hasErrorResult` from try.go: the signature has a final result
whose type is the identifier `error`. -/
def hasErrorResult (sig : FuncType) : Bool :=
  match sig.results with
  | none => false
  | some fl =>
      match fl.getLast? with
      | none => false
      | some (.mk _ typ _) =>
          match typ with
          | some t => isName t "error"
          | none => false

/-- `ast.Decl`: a top-level declaration.  Only function declarations
are inspected by `tryFile`; everything else is `otherDecl`. -/
inductive Decl where
  | funcDecl (name : String) (ftype : FuncType) (body : Option StmtList)
  | otherDecl (tag : Nat)

/-- The per-declaration body of the `tryFile` loop: count the function,
and if it returns an error and has a body, walk the body with a fresh
`funcInfo` and, at function end, emit one `SharedLast` entry per
captured expression when more than one was captured.  Returns the
(possibly rewritten) body, the counters, and whether this function was
modified. -/
def tryFuncDecl (cfg : Config) (st : GState) (ftype : FuncType)
    (body : Option StmtList) : Option StmtList × GState × Bool :=
  let st1 := count .Func none st
  if hasErrorResult ftype then
    match body with
    | some bs =>
        let st2 := count .FuncError none st1
        let fi0 : FuncInfo := ⟨false, some []⟩
        let r := tryBlock cfg st2 fi0 bs
        let st3 :=
          match r.2.2.sharedLast with
          | some sl =>
              if sl.length > 1 then
                sl.foldl (fun s2 e => count .SharedLast (some (.exprNode e)) s2) r.2.1
              else r.2.1
          | none => r.2.1
        (some r.1, st3, r.2.2.modified)
    | none => (none, st1, false)
  else (body, st1, false)

/-- `tryFile` from try.go: walk every top-level function declaration,
or-ing the per-function modified flags into the `*modified`
out-parameter (which Go only ever sets to true). -/
def tryFile (cfg : Config) (st : GState) (decls : List Decl) (modified : Bool) :
    List Decl × GState × Bool :=
  match decls with
  | [] => ([], st, modified)
  | .funcDecl name ftype body :: rest =>
      let r := tryFuncDecl cfg st ftype body
      let rr := tryFile cfg r.2.1 rest (modified || r.2.2)
      (.funcDecl name ftype r.1 :: rr.1, rr.2.1, rr.2.2)
  | .otherDecl t :: rest =>
      let rr := tryFile cfg st rest modified
      (.otherDecl t :: rr.1, rr.2.1, rr.2.2)

/-! ### Basic lemmas about the state and the loop -/

theorem counts_count (k : Kind) (n : Option PosNode) (st : GState) (k2 : Kind) :
    (count k n st).counts k2 = if k2 = k then st.counts k2 + 1 else st.counts k2 := by
  cases n <;> rfl

theorem oob_count (k : Kind) (n : Option PosNode) (st : GState) :
    (count k n st).oob = st.oob := by
  cases n <;> rfl

theorem recs_count_self (k : Kind) (nd : PosNode) (st : GState) :
    (count k (some nd) st).recs k = st.recs k ++ [nd] := by
  simp [count]

theorem recs_count_other (k : Kind) (n : Option PosNode) (st : GState) (k2 : Kind)
    (h : k2 ≠ k) : (count k n st).recs k2 = st.recs k2 := by
  cases n <;> simp [count, h]

/-- The slot list of an unmodified block: every statement in its own
non-tombstoned slot. -/
def someSlots : StmtList → List (Option Stmt)
  | .nil => []
  | .cons s rest => some s :: someSlots rest

theorem compact_someSlots : ∀ l : StmtList, compact (someSlots l) = l
  | .nil => rfl
  | .cons s rest => by simp [someSlots, compact, compact_someSlots rest]

theorem isErrAssign_none (errname : String) : isErrAssign none errname = false := rfl

theorem isTryHandler_modified (fi : FuncInfo) (st : GState) (body : StmtList)
    (els : Option Stmt) (errname : String) :
    (isTryHandler fi st body els errname).2.1.modified = fi.modified := by
  unfold isTryHandler
  rcases hir : isReturn body with ⟨ok, lastO⟩
  simp only [hir]
  repeat' split
  all_goals simp_all

theorem isTryHandler_oob (fi : FuncInfo) (st : GState) (body : StmtList)
    (els : Option Stmt) (errname : String) :
    (isTryHandler fi st body els errname).2.2.oob = st.oob := by
  unfold isTryHandler
  rcases hir : isReturn body with ⟨ok, lastO⟩
  simp only [hir]
  repeat' split
  all_goals simp_all [oob_count]

/-! ### Shared concrete example material -/

/-- A call expression `f()`. -/
def exCall : Expr := .callExpr (.ident "f") .nil 0

/-- The condition `err != nil`. -/
def exErrTest : Expr := .binaryExpr (.ident "err") tokNEQ (.ident "nil")

/-- The fresh per-function info installed by `tryFile`. -/
def fiStart : FuncInfo := ⟨false, some []⟩

/-- Rewrite mode (`-r`), any error-variable name. -/
def cfgRewrite : Config := ⟨true, ""⟩

/-- List/count mode, any error-variable name. -/
def cfgList : Config := ⟨false, ""⟩

/-- The assignment `v, err := f()`. -/
def exInitAssign : Stmt := .assignStmt [.ident "v", .ident "err"] tokDEFINE [exCall]

/-- `if v, err := f(); err != nil { return err }` (initializer form). -/
def exIfInitForm : Stmt :=
  .ifStmt (some exInitAssign) exErrTest (.cons (.returnStmt [.ident "err"]) .nil) none

/-- The rewritten assignment `v := try(f())`. -/
def exTryAssign : Stmt :=
  .assignStmt [.ident "v"] tokDEFINE [.callExpr (.ident "try") (.cons exCall .nil) 0]

/-! ### Claim C1 -/

/-- Is the statement a conditional? -/
def isIfStmt : Stmt → Bool
  | .ifStmt .. => true
  | _ => false

/-- Does the block contain a conditional at top level? -/
def StmtList.anyIf : StmtList → Bool
  | .nil => false
  | .cons s rest => isIfStmt s || rest.anyIf

/-- C1, counterexample.  The claim says that for an accepted
try-candidate in the initializer form the rewrite replaces only the
initializer and leaves the if statement, its condition and its body
present in the enclosing block.  On the block
`{ if v, err := f(); err != nil { return err } }` the candidate is
accepted (one TryCand count), yet after the rewrite the enclosing
block consists of the single assignment `v := try(f())` and contains
no if statement at all: `tryBlock` stores the rewritten assignment
into the slot of the if statement (`b.List[i] = rewriteAssign(s.Init,
s.End())`), discarding the conditional. -/
theorem c1_counterexample :
    (tryBlock cfgRewrite st0 fiStart (.cons exIfInitForm .nil)).2.1.counts .TryCand = 1 ∧
    (tryBlock cfgRewrite st0 fiStart (.cons exIfInitForm .nil)).1 = .cons exTryAssign .nil ∧
    (tryBlock cfgRewrite st0 fiStart (.cons exIfInitForm .nil)).1.anyIf = false :=
  ⟨rfl, rfl, rfl⟩

/-- C1 (amended): for every accepted try-candidate whose matched
assignment is the conditional's own initializer, the rewrite stores the
rewritten assignment into the slot of the if statement itself in the
enclosing block, so the conditional (with its condition and body) is
removed from the block rather than retained; the slot is not
tombstoned (`dirty` is unchanged) and the function is marked modified.
Stated as the exact one-step equation of the walker loop on a matching
conditional at the head of the remaining statements, for an arbitrary
continuation `rest`, arbitrary accumulated slots, and an arbitrary
matching initializer `a` and handler `return rs`. -/
theorem c1_theorem (cfg : Config) (st : GState) (fi : FuncInfo) (prev : Option Stmt)
    (acc : List (Option Stmt)) (dirty : Bool) (rest : StmtList)
    (a : Stmt) (cond : Expr) (rs : List Expr) (ename : String)
    (hrw : cfg.rewrite = true)
    (het : isErrTest cond cfg.varname = (true, ename))
    (hia : isErrAssign (some a) ename = true)
    (hret : isReturn (.cons (.returnStmt rs) .nil) = (true, some (.ident ename))) :
    tryLoop cfg st fi prev acc dirty
        (.cons (.ifStmt (some a) cond (.cons (.returnStmt rs) .nil) none) rest) =
      (let s1 := Stmt.ifStmt (some a) cond (.cons (.returnStmt rs) .nil) none
       let stC := count .IfErr none (count .Stmt none (count .If none (count .Stmt none st)))
       let stT := count .TryCand (some (.stmtNode s1)) stC
       let stN := if ename != "err" then count .NonErrName (some (.exprNode cond)) stT else stT
       tryLoop cfg stN ⟨true, none⟩ (some s1) (acc ++ [some (rewriteAssign a)]) dirty rest) := by
  simp only [tryLoop, tryElse, compact, het, Option.isNone_some, Bool.false_and, Bool.false_eq_true,
    if_neg, hia, hrw, isTryHandler, hret, isName, beq_self_eq_true, Bool.not_true,
    Bool.if_false_left, Option.getD_some]
  simp [isErrAssign]

/-- C1, witness for the amended theorem at the concrete block
`{ if v, err := f(); err != nil { return err } }` in rewrite mode. -/
theorem c1_witness :
    (tryLoop cfgRewrite st0 fiStart none [] false
        (.cons (.ifStmt (some exInitAssign) exErrTest
          (.cons (.returnStmt [.ident "err"]) .nil) none) .nil)).slots
      = [some exTryAssign] := by
  have h := c1_theorem cfgRewrite st0 fiStart none [] false .nil exInitAssign exErrTest
    [Expr.ident "err"] "err" rfl rfl rfl rfl
  rw [h]
  rfl

/-! ### Claim C2 -/

/-- A switch statement with one case clause holding one statement. -/
def exSwitch : Stmt :=
  .switchStmt none none (.cons (.caseClause [] (.cons (.otherStmt 7) .nil)) .nil)

/-- A select statement whose communication clause contains a perfect
separate-form try-candidate. -/
def exSelect : Stmt :=
  .selectStmt (.cons (.commClause none
    (.cons (.assignStmt [.ident "err"] tokDEFINE [exCall])
      (.cons (.ifStmt none exErrTest (.cons (.returnStmt [.ident "err"]) .nil) none) .nil))) .nil)

/-- C2, counterexample.  The claim says every statement nested anywhere
inside a walked switch or select, including the statements inside the
individual case and communication clauses, is visited and counted as a
walked statement.  Walking `{ switch { case: s } }` counts only 2
statements (the switch and the clause) although a statement `s` sits
inside the clause, so 3 would be counted if clause bodies were visited;
and a textually perfect try-candidate inside a communication clause of
a select is never matched: neither an error-test conditional nor a
try-candidate is counted.  The type switch of `tryBlock` has no case
for clause statements, so their bodies are never entered. -/
theorem c2_counterexample :
    (tryBlock cfgList st0 fiStart (.cons exSwitch .nil)).2.1.counts .Stmt = 2 ∧
    (tryBlock cfgList st0 fiStart (.cons exSelect .nil)).2.1.counts .Stmt = 2 ∧
    (tryBlock cfgList st0 fiStart (.cons exSelect .nil)).2.1.counts .IfErr = 0 ∧
    (tryBlock cfgList st0 fiStart (.cons exSelect .nil)).2.1.counts .TryCand = 0 :=
  ⟨rfl, rfl, rfl, rfl⟩

/-- C2 (amended): for every block-bearing statement of the kinds plain
nested block, loop, iteration, concurrent-select, branch-on-value and
branch-on-type, the walker recurses into the statement's own body block
unconditionally, counting each visited statement; the entries of a
switch or select body are its case/communication clauses, each counted
as one walked statement, but the statements inside those clauses are
not visited (the clause is carried to its slot unchanged, with no
recursion into its body).  Each conjunct is the exact one-step
equation of the walker loop for the corresponding statement kind. -/
theorem c2_theorem :
    (∀ cfg st fi prev acc dirty body rest,
      tryLoop cfg st fi prev acc dirty (.cons (.blockStmt body) rest) =
        (let r := tryLoop cfg (count .Stmt none st) fi none [] false body
         let s1 := Stmt.blockStmt (compact r.slots)
         tryLoop cfg r.st r.fi (some s1) (acc ++ [some s1]) dirty rest)) ∧
    (∀ cfg st fi prev acc dirty ini cond post body rest,
      tryLoop cfg st fi prev acc dirty (.cons (.forStmt ini cond post body) rest) =
        (let r := tryLoop cfg (count .Stmt none st) fi none [] false body
         let s1 := Stmt.forStmt ini cond post (compact r.slots)
         tryLoop cfg r.st r.fi (some s1) (acc ++ [some s1]) dirty rest)) ∧
    (∀ cfg st fi prev acc dirty key val tok x body rest,
      tryLoop cfg st fi prev acc dirty (.cons (.rangeStmt key val tok x body) rest) =
        (let r := tryLoop cfg (count .Stmt none st) fi none [] false body
         let s1 := Stmt.rangeStmt key val tok x (compact r.slots)
         tryLoop cfg r.st r.fi (some s1) (acc ++ [some s1]) dirty rest)) ∧
    (∀ cfg st fi prev acc dirty body rest,
      tryLoop cfg st fi prev acc dirty (.cons (.selectStmt body) rest) =
        (let r := tryLoop cfg (count .Stmt none st) fi none [] false body
         let s1 := Stmt.selectStmt (compact r.slots)
         tryLoop cfg r.st r.fi (some s1) (acc ++ [some s1]) dirty rest)) ∧
    (∀ cfg st fi prev acc dirty ini tag body rest,
      tryLoop cfg st fi prev acc dirty (.cons (.switchStmt ini tag body) rest) =
        (let r := tryLoop cfg (count .Stmt none st) fi none [] false body
         let s1 := Stmt.switchStmt ini tag (compact r.slots)
         tryLoop cfg r.st r.fi (some s1) (acc ++ [some s1]) dirty rest)) ∧
    (∀ cfg st fi prev acc dirty ini ax body rest,
      tryLoop cfg st fi prev acc dirty (.cons (.typeSwitchStmt ini ax body) rest) =
        (let r := tryLoop cfg (count .Stmt none st) fi none [] false body
         let s1 := Stmt.typeSwitchStmt ini ax (compact r.slots)
         tryLoop cfg r.st r.fi (some s1) (acc ++ [some s1]) dirty rest)) ∧
    (∀ cfg st fi prev acc dirty exprs body rest,
      tryLoop cfg st fi prev acc dirty (.cons (.caseClause exprs body) rest) =
        tryLoop cfg (count .Stmt none st) fi (some (.caseClause exprs body))
          (acc ++ [some (.caseClause exprs body)]) dirty rest) ∧
    (∀ cfg st fi prev acc dirty comm body rest,
      tryLoop cfg st fi prev acc dirty (.cons (.commClause comm body) rest) =
        tryLoop cfg (count .Stmt none st) fi (some (.commClause comm body))
          (acc ++ [some (.commClause comm body)]) dirty rest) := by
  refine ⟨?_, ?_, ?_, ?_, ?_, ?_, ?_, ?_⟩ <;> intros <;> rfl

/-! ### Claim C3 -/

/-- The assignment `err := f()`. -/
def exAssignErr : Stmt := .assignStmt [.ident "err"] tokDEFINE [exCall]

/-- `if err != nil { a; b } else { }`: complex handler and else branch. -/
def exComplexElseIf : Stmt :=
  .ifStmt none exErrTest
    (.cons (.exprStmt (.ident "a")) (.cons (.exprStmt (.ident "b")) .nil))
    (some (.blockStmt .nil))

/-- C3, counterexample.  The claim says the matching sequence
short-circuits in the order body-shape, trailing-result, else-branch,
candidate-assignment, recording exactly one rejection bucket (the first
failing step), so a conditional with a complex handler and an else
branch would be recorded only under the complex-handler bucket; and
that the handler checks run regardless of whether a candidate
assignment exists.  On `{ err := f(); if err != nil { a; b } else { } }`
the code records BOTH the complex-handler bucket and the has-else
bucket (1 each); and on the same conditional without the preceding
assignment it records NEITHER (the handler checks are reached only
through `isErrAssign(p, ...) && fi.isTryHandler(...)`, short-circuited
the other way around), although the conditional is counted as an
error test. -/
theorem c3_counterexample :
    (tryBlock cfgList st0 fiStart (.cons exAssignErr (.cons exComplexElseIf .nil))).2.1.counts .ComplexBlock = 1 ∧
    (tryBlock cfgList st0 fiStart (.cons exAssignErr (.cons exComplexElseIf .nil))).2.1.counts .HasElse = 1 ∧
    (tryBlock cfgList st0 fiStart (.cons exComplexElseIf .nil)).2.1.counts .IfErr = 1 ∧
    (tryBlock cfgList st0 fiStart (.cons exComplexElseIf .nil)).2.1.counts .ComplexBlock = 0 ∧
    (tryBlock cfgList st0 fiStart (.cons exComplexElseIf .nil)).2.1.counts .SingleStmt = 0 ∧
    (tryBlock cfgList st0 fiStart (.cons exComplexElseIf .nil)).2.1.counts .ReturnExpr = 0 ∧
    (tryBlock cfgList st0 fiStart (.cons exComplexElseIf .nil)).2.1.counts .HasElse = 0 :=
  ⟨rfl, rfl, rfl, rfl, rfl, rfl, rfl⟩

set_option maxRecDepth 4000 in
/-- C3 (amended): for a conditional of the form `<ident> != nil`, the
matcher first requires a candidate assignment (the preceding statement
when the conditional carries no initializer, otherwise the
initializer); only when one matches are the handler checks evaluated,
and then the body-shape, trailing-result and else-branch checks are
all evaluated, each failing check recording its own bucket (so one
conditional may record several); a conditional without a matching
candidate assignment records none of those buckets.  First conjunct:
exact bucket accounting and acceptance condition of `isTryHandler`.
Second conjunct: the loop equation for a conditional whose candidate
assignment fails on both sides, which leaves the walk state exactly at
the statement/conditional/error-test counts. -/
theorem c3_theorem :
    (∀ fi st body els errname,
      ((isTryHandler fi st body els errname).2.2.counts .ComplexBlock =
        st.counts .ComplexBlock +
          (if (isReturn body).1 = false ∧ body.length > 1 then 1 else 0)) ∧
      ((isTryHandler fi st body els errname).2.2.counts .SingleStmt =
        st.counts .SingleStmt +
          (if (isReturn body).1 = false ∧ ¬body.length > 1 then 1 else 0)) ∧
      ((isTryHandler fi st body els errname).2.2.counts .ReturnExpr =
        st.counts .ReturnExpr +
          (match (isReturn body).2 with
           | some l => if isName l errname then 0 else 1
           | none => 0)) ∧
      ((isTryHandler fi st body els errname).2.2.counts .HasElse =
        st.counts .HasElse + (if els.isSome then 1 else 0)) ∧
      ((isTryHandler fi st body els errname).1 =
        ((isReturn body).1 &&
         (match (isReturn body).2 with
          | some l => isName l errname
          | none => true) &&
         els.isNone))) ∧
    (∀ cfg st fi prev acc dirty ini cond rs rest ename,
      isErrTest cond cfg.varname = (true, ename) →
      ¬(ini.isNone = true ∧ isErrAssign prev ename = true) →
      isErrAssign ini ename = false →
      tryLoop cfg st fi prev acc dirty
          (.cons (.ifStmt ini cond (.cons (.returnStmt rs) .nil) none) rest) =
        (let s1 := Stmt.ifStmt ini cond (.cons (.returnStmt rs) .nil) none
         let st4 := count .IfErr none (count .Stmt none (count .If none (count .Stmt none st)))
         tryLoop cfg st4 fi (some s1) (acc ++ [some s1]) dirty rest)) := by
  constructor
  · intro fi st body els errname
    unfold isTryHandler
    rcases hir : isReturn body with ⟨ok, lastO⟩
    simp only [hir]
    by_cases hlen : body.length > 1 <;>
      cases ok <;> rcases lastO with _ | l <;> rcases els with _ | e <;>
        simp only [Bool.not_false, Bool.not_true, if_true, if_false, ite_true, ite_false,
          Option.isSome_none, Option.isSome_some, Option.isNone_none, Option.isNone_some] <;>
      first
        | (by_cases hnm : isName l errname = true <;>
            simp [counts_count, hlen, hnm])
        | simp [counts_count, hlen]
  · intro cfg st fi prev acc dirty ini cond rs rest ename het hb1 hb2
    have hb : (ini.isNone && isErrAssign prev ename) = false := by
      cases h1 : ini.isNone <;> cases h2 : isErrAssign prev ename <;> simp_all
    simp only [tryLoop, tryElse, compact, het, hb, hb2, Bool.false_eq_true, if_neg, ite_false]
    simp

/-- C3, witness for the amended theorem: the bucket accounting applied
to the complex-handler-with-else example, and the no-candidate loop
equation applied to the same conditional standing alone. -/
theorem c3_witness :
    ((isTryHandler fiStart st0
        (.cons (.exprStmt (.ident "a")) (.cons (.exprStmt (.ident "b")) .nil))
        (some (.blockStmt .nil)) "err").2.2.counts .ComplexBlock = 1 ∧
     (isTryHandler fiStart st0
        (.cons (.exprStmt (.ident "a")) (.cons (.exprStmt (.ident "b")) .nil))
        (some (.blockStmt .nil)) "err").2.2.counts .HasElse = 1) ∧
    (tryLoop cfgList st0 fiStart none [] false (.cons (.ifStmt none exErrTest (.cons (.returnStmt [.ident "err"]) .nil) none) .nil)).st.counts .SingleStmt = 0 := by
  constructor
  · have h := (c3_theorem.1 fiStart st0
      (.cons (.exprStmt (.ident "a")) (.cons (.exprStmt (.ident "b")) .nil))
      (some (.blockStmt .nil)) "err")
    exact ⟨by rw [h.1]; rfl, by rw [h.2.2.2.1]; rfl⟩
  · have h := c3_theorem.2 cfgList st0 fiStart none [] false none exErrTest
      [.ident "err"] .nil "err" rfl (by simp [isErrAssign_none]) rfl
    rw [h]
    rfl

/-! ### Claim C4 -/

/-- C4: for every accepted try-candidate in the separate-statement form
(no initializer on the conditional), rewriting replaces the preceding
statement slot with the rewritten assignment, tombstones the
conditional slot (`none`, with `dirty` set), and the compaction pass at
the end of `tryBlock` removes all tombstones, so the returned statement
list is tombstone-free with the surviving statements in their original
relative order.  First conjunct: the exact two-step loop equation (slot
of the assignment replaced by `rewriteAssign`, slot of the conditional
tombstoned, `dirty` set, function marked modified), for arbitrary
accumulated slots and continuation.  Second conjunct: the whole-block
result for the two-statement block, where compaction has removed the
tombstone and only the rewritten assignment survives. -/
theorem c4_theorem (cfg : Config) (st : GState) (fi : FuncInfo) (prev : Option Stmt)
    (acc : List (Option Stmt)) (dirty : Bool) (rest : StmtList)
    (lhs : List Expr) (tok : Nat) (rhs : List Expr) (cond : Expr) (rs : List Expr)
    (ename : String)
    (hrw : cfg.rewrite = true)
    (het : isErrTest cond cfg.varname = (true, ename))
    (hia : isErrAssign (some (.assignStmt lhs tok rhs)) ename = true)
    (hret : isReturn (.cons (.returnStmt rs) .nil) = (true, some (.ident ename))) :
    (tryLoop cfg st fi prev acc dirty
        (.cons (.assignStmt lhs tok rhs)
          (.cons (.ifStmt none cond (.cons (.returnStmt rs) .nil) none) rest)) =
      (let a := Stmt.assignStmt lhs tok rhs
       let s1 := Stmt.ifStmt none cond (.cons (.returnStmt rs) .nil) none
       let stC := count .IfErr none (count .Stmt none (count .If none
         (count .Stmt none (count .Stmt none st))))
       let stT := count .TryCand (some (.stmtNode s1)) stC
       let stN := if ename != "err" then count .NonErrName (some (.exprNode cond)) stT else stT
       tryLoop cfg stN ⟨true, none⟩ (some s1)
         (acc ++ [some (rewriteAssign a), none]) true rest)) ∧
    (tryBlock cfg st fi
        (.cons (.assignStmt lhs tok rhs)
          (.cons (.ifStmt none cond (.cons (.returnStmt rs) .nil) none) .nil)) =
      (.cons (rewriteAssign (.assignStmt lhs tok rhs)) .nil,
       (let s1 := Stmt.ifStmt none cond (.cons (.returnStmt rs) .nil) none
        let stC := count .IfErr none (count .Stmt none (count .If none
          (count .Stmt none (count .Stmt none st))))
        let stT := count .TryCand (some (.stmtNode s1)) stC
        if ename != "err" then count .NonErrName (some (.exprNode cond)) stT else stT),
       ⟨true, none⟩)) := by
  have step : ∀ (st2 : GState) (fi2 : FuncInfo) (prev2 : Option Stmt)
      (acc2 : List (Option Stmt)) (dirty2 : Bool) (rest2 : StmtList),
      tryLoop cfg st2 fi2 prev2 acc2 dirty2
          (.cons (.assignStmt lhs tok rhs)
            (.cons (.ifStmt none cond (.cons (.returnStmt rs) .nil) none) rest2)) =
        (let a := Stmt.assignStmt lhs tok rhs
         let s1 := Stmt.ifStmt none cond (.cons (.returnStmt rs) .nil) none
         let stC := count .IfErr none (count .Stmt none (count .If none
           (count .Stmt none (count .Stmt none st2))))
         let stT := count .TryCand (some (.stmtNode s1)) stC
         let stN := if ename != "err" then count .NonErrName (some (.exprNode cond)) stT else stT
         tryLoop cfg stN ⟨true, none⟩ (some s1)
           (acc2 ++ [some (rewriteAssign a), none]) true rest2) := by
    intro st2 fi2 prev2 acc2 dirty2 rest2
    have hne : (acc2 ++ [some (Stmt.assignStmt lhs tok rhs)]).isEmpty = false := by
      simp [List.isEmpty_iff]
    simp only [tryLoop, tryElse, compact, het, hia, hrw, isTryHandler, hret, isName,
      beq_self_eq_true, Option.isNone_none, Bool.true_and, Option.getD_some,
      List.dropLast_concat, hne,
      Bool.and_false, Bool.not_true, Bool.if_false_left]
    simp [List.append_assoc]
  refine ⟨step st fi prev acc dirty rest, ?_⟩
  unfold tryBlock
  rw [step st fi none [] false .nil]
  simp only [tryLoop, List.nil_append, compact]

/-- C4, witness at the concrete block
`{ v, err := f(); if err != nil { return 0, err } }` in rewrite mode:
the block collapses to the single statement `v := try(f())`. -/
theorem c4_witness :
    (tryBlock cfgRewrite st0 fiStart
        (.cons exInitAssign
          (.cons (.ifStmt none exErrTest
            (.cons (.returnStmt [.basicLit .INT "0", .ident "err"]) .nil) none) .nil))).1
      = .cons exTryAssign .nil := by
  have h := (c4_theorem cfgRewrite st0 fiStart none [] false .nil
    [.ident "v", .ident "err"] tokDEFINE [exCall] exErrTest
    [.basicLit .INT "0", .ident "err"] "err" rfl rfl rfl (by rfl)).2
  rw [show (tryBlock cfgRewrite st0 fiStart
      (.cons exInitAssign
        (.cons (.ifStmt none exErrTest
          (.cons (.returnStmt [.basicLit .INT "0", .ident "err"]) .nil) none) .nil))) =
      (tryBlock cfgRewrite st0 fiStart
        (.cons (.assignStmt [.ident "v", .ident "err"] tokDEFINE [exCall])
          (.cons (.ifStmt none exErrTest
            (.cons (.returnStmt [.basicLit .INT "0", .ident "err"]) .nil) none) .nil))) from rfl]
  rw [h]
  rfl

/-! ### Claim C5 -/

theorem recs_foldl_sharedLast (sl : List Expr) (st : GState) :
    (sl.foldl (fun s2 e => count .SharedLast (some (.exprNode e)) s2) st).recs .SharedLast
      = st.recs .SharedLast ++ sl.map PosNode.exprNode := by
  induction sl generalizing st with
  | nil => simp
  | cons e rest ih => simp [ih, recs_count_self]

/-- C5: per walked function, if the accumulator `sharedLast` ends the
walk holding two or more captured trailing expressions, `tryFile` emits
exactly one `SharedLast` classification entry per captured expression
(first conjunct); with one or zero captured expressions, or an
invalidated accumulator, it emits none (second conjunct); a mismatched
trailing expression that is not structurally `equal` to the first
captured one invalidates the accumulator (third conjunct); and an
invalidated accumulator stays invalidated for the rest of the function
(fourth conjunct), so such a function emits zero entries. -/
theorem c5_theorem :
    (∀ cfg st ftype bs sl,
      hasErrorResult ftype = true →
      (tryBlock cfg (count .FuncError none (count .Func none st)) ⟨false, some []⟩ bs).2.2.sharedLast = some sl →
      sl.length > 1 →
      (tryFuncDecl cfg st ftype (some bs)).2.1.recs .SharedLast =
        (tryBlock cfg (count .FuncError none (count .Func none st)) ⟨false, some []⟩ bs).2.1.recs .SharedLast
          ++ sl.map PosNode.exprNode) ∧
    (∀ cfg st ftype bs,
      hasErrorResult ftype = true →
      ((tryBlock cfg (count .FuncError none (count .Func none st)) ⟨false, some []⟩ bs).2.2.sharedLast = none ∨
       (∃ sl, (tryBlock cfg (count .FuncError none (count .Func none st)) ⟨false, some []⟩ bs).2.2.sharedLast = some sl ∧
         ¬sl.length > 1)) →
      (tryFuncDecl cfg st ftype (some bs)).2.1.recs .SharedLast =
        (tryBlock cfg (count .FuncError none (count .Func none st)) ⟨false, some []⟩ bs).2.1.recs .SharedLast) ∧
    (∀ fi st body els ename e0 es lst,
      fi.sharedLast = some (e0 :: es) →
      isReturn body = (true, some lst) →
      isName lst ename = false →
      equal lst e0 = false →
      (isTryHandler fi st body els ename).2.1.sharedLast = none) ∧
    (∀ fi st body els ename,
      fi.sharedLast = none →
      (isTryHandler fi st body els ename).2.1.sharedLast = none) := by
  refine ⟨?_, ?_, ?_, ?_⟩
  · intro cfg st ftype bs sl hEF hsl hlen
    simp only [tryFuncDecl, hEF, if_true]
    rw [hsl]
    simp only [hlen, if_true, recs_foldl_sharedLast]
  · intro cfg st ftype bs hEF hcase
    simp only [tryFuncDecl, hEF, if_true]
    rcases hcase with hnone | ⟨sl, hsl, hlen⟩
    · rw [hnone]
    · rw [hsl]; simp [hlen]
  · intro fi st body els ename e0 es lst hsh hret hnm heq
    unfold isTryHandler
    rw [hret]
    cases els <;> simp [hnm, hsh, heq]
  · intro fi st body els ename hsh
    unfold isTryHandler
    rcases hir : isReturn body with ⟨ok, lastO⟩
    cases els <;> rcases lastO with _ | l <;> simp [hsh] <;> split <;> simp [hsh]

/-- The block `{ err := f(); if err != nil { return wrap(err) };
err := f(); if err != nil { return wrap(err) } }`: two handlers with
the same non-sentinel trailing expression. -/
def exTwoWrapBlock : StmtList :=
  .cons exAssignErr
    (.cons (.ifStmt none exErrTest
      (.cons (.returnStmt [.callExpr (.ident "wrap") (.cons (.ident "err") .nil) 0]) .nil) none)
      (.cons exAssignErr
        (.cons (.ifStmt none exErrTest
          (.cons (.returnStmt [.callExpr (.ident "wrap") (.cons (.ident "err") .nil) 0]) .nil) none)
          .nil)))

/-- A signature returning `error`. -/
def exErrSig : FuncType := ⟨none, some (.cons (.mk [] (some (.ident "error")) none) .nil)⟩

/-- C5, witness: on the two-`wrap(err)` function the accumulator ends
with the two captured calls and `tryFile` emits exactly those two
entries, in order, in the shared-trailing bucket. -/
theorem c5_witness :
    (tryBlock cfgList (count .FuncError none (count .Func none st0)) ⟨false, some []⟩ exTwoWrapBlock).2.2.sharedLast
      = some [.callExpr (.ident "wrap") (.cons (.ident "err") .nil) 0,
              .callExpr (.ident "wrap") (.cons (.ident "err") .nil) 0] ∧
    (tryFuncDecl cfgList st0 exErrSig (some exTwoWrapBlock)).2.1.recs .SharedLast =
      (tryBlock cfgList (count .FuncError none (count .Func none st0)) ⟨false, some []⟩ exTwoWrapBlock).2.1.recs .SharedLast
        ++ [PosNode.exprNode (.callExpr (.ident "wrap") (.cons (.ident "err") .nil) 0),
            PosNode.exprNode (.callExpr (.ident "wrap") (.cons (.ident "err") .nil) 0)] :=
  ⟨rfl, c5_theorem.1 cfgList st0 exErrSig exTwoWrapBlock
    [.callExpr (.ident "wrap") (.cons (.ident "err") .nil) 0,
     .callExpr (.ident "wrap") (.cons (.ident "err") .nil) 0] rfl rfl (by decide)⟩

/-! ### Claim C6 -/

/-- C6: every top-level function declaration is counted (the `Func`
count appears in every branch below); the body is walked if and only
if the function has a body and the last entry of its result list is a
type named exactly the sentinel error type name (the code fixes it to
the default `"error"`; there is no other configuration).  First
conjunct: when the signature does not end in `error` or there is no
body, the declaration is returned with its body untouched, the only
counter change is the function count, and the modified flag is false —
no statement inside is classified, counted, or rewritten.  Second
conjunct: otherwise the body is walked by `tryBlock` after the
function and error-function counts. -/
theorem c6_theorem (cfg : Config) (st : GState) (ftype : FuncType) (body : Option StmtList) :
    (hasErrorResult ftype = false ∨ body = none →
      tryFuncDecl cfg st ftype body = (body, count .Func none st, false)) ∧
    (∀ bs, body = some bs → hasErrorResult ftype = true →
      tryFuncDecl cfg st ftype body =
        (let r := tryBlock cfg (count .FuncError none (count .Func none st)) ⟨false, some []⟩ bs
         let st3 :=
           match r.2.2.sharedLast with
           | some sl =>
               if sl.length > 1 then
                 sl.foldl (fun s2 e => count .SharedLast (some (.exprNode e)) s2) r.2.1
               else r.2.1
           | none => r.2.1
         (some r.1, st3, r.2.2.modified))) := by
  constructor
  · intro h
    rcases h with h | h
    · simp [tryFuncDecl, h]
    · subst h; cases hEF : hasErrorResult ftype <;> simp [tryFuncDecl, hEF]
  · intro bs hb hEF
    subst hb
    simp [tryFuncDecl, hEF]

/-- A signature whose result list ends in `int` (not the sentinel). -/
def exIntSig : FuncType := ⟨none, some (.cons (.mk [] (some (.ident "int")) none) .nil)⟩

/-- C6, witness: a function ending in `int` whose body holds a perfect
try-candidate is skipped entirely — body unchanged, no statement or
error-test count, not modified — while the same body under an
`error`-returning signature is walked. -/
theorem c6_witness :
    (tryFuncDecl cfgRewrite st0 exIntSig (some exTwoWrapBlock)
        = (some exTwoWrapBlock, count .Func none st0, false)) ∧
    (tryFuncDecl cfgRewrite st0 exIntSig (some exTwoWrapBlock)).2.1.counts .Stmt = 0 ∧
    (tryFuncDecl cfgRewrite st0 exIntSig (some exTwoWrapBlock)).2.1.counts .IfErr = 0 ∧
    (tryFuncDecl cfgRewrite st0 exErrSig (some exTwoWrapBlock)).2.1.counts .Stmt = 6 := by
  have h1 := (c6_theorem cfgRewrite st0 exIntSig (some exTwoWrapBlock)).1 (Or.inl rfl)
  have h2 := (c6_theorem cfgRewrite st0 exErrSig (some exTwoWrapBlock)).2 exTwoWrapBlock rfl rfl
  exact ⟨h1, by rw [h1]; rfl, by rw [h1]; rfl, by rw [h2]; rfl⟩

/-! ### Claim C8 -/

/-- C8: `isZero` is a total pure function (a Lean `def`), and it
returns true exactly for: the identifier `nil`; an integer literal
whose text parses under `strconv.ParseInt(v, 0, 64)` semantics (any
base, including a `0x` prefix) to 0; a float literal parsing to zero; an
imaginary literal whose text minus its trailing suffix character parses
to zero; a character literal whose text is exactly `0`; a string
literal whose text is an empty quoted or empty raw string; and a
composite literal with zero elements — and false for every other
expression, including every call expression.  The characterization is
stated as an iff over all expressions, followed by the concrete
evaluations named in the spec. -/
theorem c8_theorem :
    (∀ x : Expr, isZero x = true ↔
      (x = .ident "nil") ∨
      (∃ v, x = .basicLit .INT v ∧ parseInt0 v = some 0) ∨
      (∃ v, x = .basicLit .FLOAT v ∧ parseFloatIsZero v = true) ∨
      (∃ v, x = .basicLit .IMAG v ∧ parseFloatIsZero (v.dropRight 1) = true) ∨
      (∃ v, x = .basicLit .CHAR v ∧ v = "0") ∨
      (∃ v, x = .basicLit .STRING v ∧ (v = "\"\"" ∨ v = "``")) ∨
      (∃ t elts inc, x = .compositeLit t elts inc ∧ elts.length = 0)) ∧
    isZero (.basicLit .INT "0") = true ∧
    isZero (.basicLit .INT "0x0") = true ∧
    isZero (.basicLit .FLOAT "0.0") = true ∧
    isZero (.basicLit .IMAG "0i") = true ∧
    isZero (.basicLit .CHAR "0") = true ∧
    isZero (.basicLit .STRING "\"\"") = true ∧
    isZero (.compositeLit (some (.ident "T")) .nil false) = true ∧
    isZero (.ident "nil") = true ∧
    isZero (.callExpr (.ident "f") .nil 0) = false ∧
    isZero (.basicLit .INT "1") = false ∧
    isZero (.ident "x") = false := by
  have hne : ∀ v : String, v ≠ "" → (v.length == 0) = false := by
    intro v hv
    have hz : v.length ≠ 0 := by
      intro hz
      apply hv
      rcases v with ⟨data⟩
      cases data with
      | nil => rfl
      | cons c cs => simp [String.length] at hz
    simp [hz]
  have ifGuard : ∀ (v : String) (b : Bool), (v = "" → b = false) →
      (((if (v.length == 0) = true then false else b) = true) ↔ b = true) := by
    intro v b hb
    by_cases hv : v = ""
    · subst hv
      rw [hb rfl]
      simp
    · rw [hne v hv]
      simp
  refine ⟨?_, rfl, rfl, rfl, rfl, rfl, rfl, rfl, rfl, rfl, rfl, rfl⟩
  intro x
  cases x with
  | basicLit k v =>
      cases k with
      | INT =>
          simp only [isZero]
          rw [ifGuard v _ (fun h => by subst h; rfl)]
          rcases hp : parseInt0 v with _ | z <;> simp [hp]
      | FLOAT =>
          simp only [isZero]
          rw [ifGuard v _ (fun h => by subst h; rfl)]
          simp
      | IMAG =>
          simp only [isZero]
          rw [ifGuard v _ (fun h => by subst h; rfl)]
          simp
      | CHAR =>
          simp only [isZero]
          rw [ifGuard v _ (fun h => by subst h; rfl)]
          simp
      | STRING =>
          simp only [isZero]
          rw [ifGuard v _ (fun h => by subst h; rfl)]
          simp
  | compositeLit t elts inc =>
      cases elts with
      | nil =>
          simp [isZero, ExprList.length]
          exact ⟨t, .nil, ⟨rfl, rfl⟩, rfl⟩
      | cons a r => simp [isZero, ExprList.length]
  | _ => simp [isZero]

/-! ### Master loop lemma -/

theorem hcat (z : List (Option Stmt)) (w : Option Stmt) : z ++ [w] ≠ [] := by simp

set_option maxHeartbeats 1600000 in
theorem tryLoop_master (cfg : Config) : ∀ n : Nat, ∀ l : StmtList, sizeOf l ≤ n →
    ∀ (st : GState) (fi : FuncInfo) (prev : Option Stmt) (acc : List (Option Stmt)) (dirty : Bool),
      ((∀ pa : Stmt, prev = some pa → acc ≠ []) →
        (tryLoop cfg st fi prev acc dirty l).st.oob = st.oob) ∧
      (dirty = true → (tryLoop cfg st fi prev acc dirty l).dirty = true) ∧
      ((tryLoop cfg st fi prev acc dirty l).dirty = false →
        (∀ o ∈ acc, o.isSome = true) →
        ∀ o ∈ (tryLoop cfg st fi prev acc dirty l).slots, o.isSome = true) ∧
      (cfg.rewrite = false →
        (tryLoop cfg st fi prev acc dirty l).slots = acc ++ someSlots l ∧
        (tryLoop cfg st fi prev acc dirty l).dirty = dirty ∧
        (tryLoop cfg st fi prev acc dirty l).fi.modified = fi.modified) := by
  intro n
  induction n with
  | zero =>
      intro l hl
      exfalso
      cases l <;> simp at hl
  | succ n ih =>
      intro l hl st fi prev acc dirty
      cases l with
      | nil =>
          exact ⟨fun _ => rfl, fun h => h, fun _ ha o ho => ha o ho,
            fun _ => ⟨by simp [tryLoop, someSlots], rfl, rfl⟩⟩
      | cons s rest =>
          have hrest : sizeOf rest ≤ n := by
            simp [StmtList.cons.sizeOf_spec] at hl
            omega
          cases s with
          | assignStmt lhs tok rhs =>
              simp only [tryLoop]
              refine ⟨fun hinv => ?_, fun hd => ?_, fun hdf ha => ?_, fun hrw => ?_⟩
              · rw [(ih rest hrest _ _ _ _ _).1 (fun pa _ => hcat _ _)]
                exact oob_count _ _ _
              · exact (ih rest hrest _ _ _ _ _).2.1 hd
              · refine (ih rest hrest _ _ _ _ _).2.2.1 hdf ?_
                intro o ho
                rcases List.mem_append.1 ho with h9 | h9
                · exact ha o h9
                · simp at h9; subst h9; rfl
              · rcases (ih rest hrest _ _ _ _ _).2.2.2 hrw with ⟨h1, h2, h3⟩
                refine ⟨?_, h2, h3⟩
                rw [h1]
                simp [someSlots]
          | exprStmt x =>
              simp only [tryLoop]
              refine ⟨fun hinv => ?_, fun hd => ?_, fun hdf ha => ?_, fun hrw => ?_⟩
              · rw [(ih rest hrest _ _ _ _ _).1 (fun pa _ => hcat _ _)]
                exact oob_count _ _ _
              · exact (ih rest hrest _ _ _ _ _).2.1 hd
              · refine (ih rest hrest _ _ _ _ _).2.2.1 hdf ?_
                intro o ho
                rcases List.mem_append.1 ho with h9 | h9
                · exact ha o h9
                · simp at h9; subst h9; rfl
              · rcases (ih rest hrest _ _ _ _ _).2.2.2 hrw with ⟨h1, h2, h3⟩
                refine ⟨?_, h2, h3⟩
                rw [h1]
                simp [someSlots]
          | returnStmt results =>
              simp only [tryLoop]
              refine ⟨fun hinv => ?_, fun hd => ?_, fun hdf ha => ?_, fun hrw => ?_⟩
              · rw [(ih rest hrest _ _ _ _ _).1 (fun pa _ => hcat _ _)]
                exact oob_count _ _ _
              · exact (ih rest hrest _ _ _ _ _).2.1 hd
              · refine (ih rest hrest _ _ _ _ _).2.2.1 hdf ?_
                intro o ho
                rcases List.mem_append.1 ho with h9 | h9
                · exact ha o h9
                · simp at h9; subst h9; rfl
              · rcases (ih rest hrest _ _ _ _ _).2.2.2 hrw with ⟨h1, h2, h3⟩
                refine ⟨?_, h2, h3⟩
                rw [h1]
                simp [someSlots]
          | caseClause exprs body =>
              simp only [tryLoop]
              refine ⟨fun hinv => ?_, fun hd => ?_, fun hdf ha => ?_, fun hrw => ?_⟩
              · rw [(ih rest hrest _ _ _ _ _).1 (fun pa _ => hcat _ _)]
                exact oob_count _ _ _
              · exact (ih rest hrest _ _ _ _ _).2.1 hd
              · refine (ih rest hrest _ _ _ _ _).2.2.1 hdf ?_
                intro o ho
                rcases List.mem_append.1 ho with h9 | h9
                · exact ha o h9
                · simp at h9; subst h9; rfl
              · rcases (ih rest hrest _ _ _ _ _).2.2.2 hrw with ⟨h1, h2, h3⟩
                refine ⟨?_, h2, h3⟩
                rw [h1]
                simp [someSlots]
          | commClause comm body =>
              simp only [tryLoop]
              refine ⟨fun hinv => ?_, fun hd => ?_, fun hdf ha => ?_, fun hrw => ?_⟩
              · rw [(ih rest hrest _ _ _ _ _).1 (fun pa _ => hcat _ _)]
                exact oob_count _ _ _
              · exact (ih rest hrest _ _ _ _ _).2.1 hd
              · refine (ih rest hrest _ _ _ _ _).2.2.1 hdf ?_
                intro o ho
                rcases List.mem_append.1 ho with h9 | h9
                · exact ha o h9
                · simp at h9; subst h9; rfl
              · rcases (ih rest hrest _ _ _ _ _).2.2.2 hrw with ⟨h1, h2, h3⟩
                refine ⟨?_, h2, h3⟩
                rw [h1]
                simp [someSlots]
          | otherStmt tag =>
              simp only [tryLoop]
              refine ⟨fun hinv => ?_, fun hd => ?_, fun hdf ha => ?_, fun hrw => ?_⟩
              · rw [(ih rest hrest _ _ _ _ _).1 (fun pa _ => hcat _ _)]
                exact oob_count _ _ _
              · exact (ih rest hrest _ _ _ _ _).2.1 hd
              · refine (ih rest hrest _ _ _ _ _).2.2.1 hdf ?_
                intro o ho
                rcases List.mem_append.1 ho with h9 | h9
                · exact ha o h9
                · simp at h9; subst h9; rfl
              · rcases (ih rest hrest _ _ _ _ _).2.2.2 hrw with ⟨h1, h2, h3⟩
                refine ⟨?_, h2, h3⟩
                rw [h1]
                simp [someSlots]
          | blockStmt body =>
              have hbody : sizeOf body ≤ n := by simp at hl; omega
              have hch := ih body hbody (count .Stmt none st) fi none [] false
              have hoob1 : (tryLoop cfg (count .Stmt none st) fi none [] false body).st.oob = st.oob := by
                rw [hch.1 (fun pa h => nomatch h)]
                exact oob_count _ _ _
              simp only [tryLoop]
              refine ⟨fun hinv => ?_, fun hd => ?_, fun hdf ha => ?_, fun hrw => ?_⟩
              · rw [(ih rest hrest _ _ _ _ _).1 (fun pa _ => hcat _ _)]
                exact hoob1
              · exact (ih rest hrest _ _ _ _ _).2.1 hd
              · refine (ih rest hrest _ _ _ _ _).2.2.1 hdf ?_
                intro o ho
                rcases List.mem_append.1 ho with h9 | h9
                · exact ha o h9
                · simp at h9; subst h9; rfl
              · rcases (ih rest hrest _ _ _ _ _).2.2.2 hrw with ⟨h1, h2, h3⟩
                refine ⟨?_, h2, h3.trans ((hch.2.2.2 hrw).2.2)⟩
                rw [h1, show compact (tryLoop cfg (count .Stmt none st) fi none [] false body).slots = body from
                  by rw [(hch.2.2.2 hrw).1]; simp [compact_someSlots]]
                simp [someSlots]
          | forStmt ini cond post body =>
              have hbody : sizeOf body ≤ n := by simp at hl; omega
              have hch := ih body hbody (count .Stmt none st) fi none [] false
              have hoob1 : (tryLoop cfg (count .Stmt none st) fi none [] false body).st.oob = st.oob := by
                rw [hch.1 (fun pa h => nomatch h)]
                exact oob_count _ _ _
              simp only [tryLoop]
              refine ⟨fun hinv => ?_, fun hd => ?_, fun hdf ha => ?_, fun hrw => ?_⟩
              · rw [(ih rest hrest _ _ _ _ _).1 (fun pa _ => hcat _ _)]
                exact hoob1
              · exact (ih rest hrest _ _ _ _ _).2.1 hd
              · refine (ih rest hrest _ _ _ _ _).2.2.1 hdf ?_
                intro o ho
                rcases List.mem_append.1 ho with h9 | h9
                · exact ha o h9
                · simp at h9; subst h9; rfl
              · rcases (ih rest hrest _ _ _ _ _).2.2.2 hrw with ⟨h1, h2, h3⟩
                refine ⟨?_, h2, h3.trans ((hch.2.2.2 hrw).2.2)⟩
                rw [h1, show compact (tryLoop cfg (count .Stmt none st) fi none [] false body).slots = body from
                  by rw [(hch.2.2.2 hrw).1]; simp [compact_someSlots]]
                simp [someSlots]
          | rangeStmt key val tok x body =>
              have hbody : sizeOf body ≤ n := by simp at hl; omega
              have hch := ih body hbody (count .Stmt none st) fi none [] false
              have hoob1 : (tryLoop cfg (count .Stmt none st) fi none [] false body).st.oob = st.oob := by
                rw [hch.1 (fun pa h => nomatch h)]
                exact oob_count _ _ _
              simp only [tryLoop]
              refine ⟨fun hinv => ?_, fun hd => ?_, fun hdf ha => ?_, fun hrw => ?_⟩
              · rw [(ih rest hrest _ _ _ _ _).1 (fun pa _ => hcat _ _)]
                exact hoob1
              · exact (ih rest hrest _ _ _ _ _).2.1 hd
              · refine (ih rest hrest _ _ _ _ _).2.2.1 hdf ?_
                intro o ho
                rcases List.mem_append.1 ho with h9 | h9
                · exact ha o h9
                · simp at h9; subst h9; rfl
              · rcases (ih rest hrest _ _ _ _ _).2.2.2 hrw with ⟨h1, h2, h3⟩
                refine ⟨?_, h2, h3.trans ((hch.2.2.2 hrw).2.2)⟩
                rw [h1, show compact (tryLoop cfg (count .Stmt none st) fi none [] false body).slots = body from
                  by rw [(hch.2.2.2 hrw).1]; simp [compact_someSlots]]
                simp [someSlots]
          | selectStmt body =>
              have hbody : sizeOf body ≤ n := by simp at hl; omega
              have hch := ih body hbody (count .Stmt none st) fi none [] false
              have hoob1 : (tryLoop cfg (count .Stmt none st) fi none [] false body).st.oob = st.oob := by
                rw [hch.1 (fun pa h => nomatch h)]
                exact oob_count _ _ _
              simp only [tryLoop]
              refine ⟨fun hinv => ?_, fun hd => ?_, fun hdf ha => ?_, fun hrw => ?_⟩
              · rw [(ih rest hrest _ _ _ _ _).1 (fun pa _ => hcat _ _)]
                exact hoob1
              · exact (ih rest hrest _ _ _ _ _).2.1 hd
              · refine (ih rest hrest _ _ _ _ _).2.2.1 hdf ?_
                intro o ho
                rcases List.mem_append.1 ho with h9 | h9
                · exact ha o h9
                · simp at h9; subst h9; rfl
              · rcases (ih rest hrest _ _ _ _ _).2.2.2 hrw with ⟨h1, h2, h3⟩
                refine ⟨?_, h2, h3.trans ((hch.2.2.2 hrw).2.2)⟩
                rw [h1, show compact (tryLoop cfg (count .Stmt none st) fi none [] false body).slots = body from
                  by rw [(hch.2.2.2 hrw).1]; simp [compact_someSlots]]
                simp [someSlots]
          | switchStmt ini tag body =>
              have hbody : sizeOf body ≤ n := by simp at hl; omega
              have hch := ih body hbody (count .Stmt none st) fi none [] false
              have hoob1 : (tryLoop cfg (count .Stmt none st) fi none [] false body).st.oob = st.oob := by
                rw [hch.1 (fun pa h => nomatch h)]
                exact oob_count _ _ _
              simp only [tryLoop]
              refine ⟨fun hinv => ?_, fun hd => ?_, fun hdf ha => ?_, fun hrw => ?_⟩
              · rw [(ih rest hrest _ _ _ _ _).1 (fun pa _ => hcat _ _)]
                exact hoob1
              · exact (ih rest hrest _ _ _ _ _).2.1 hd
              · refine (ih rest hrest _ _ _ _ _).2.2.1 hdf ?_
                intro o ho
                rcases List.mem_append.1 ho with h9 | h9
                · exact ha o h9
                · simp at h9; subst h9; rfl
              · rcases (ih rest hrest _ _ _ _ _).2.2.2 hrw with ⟨h1, h2, h3⟩
                refine ⟨?_, h2, h3.trans ((hch.2.2.2 hrw).2.2)⟩
                rw [h1, show compact (tryLoop cfg (count .Stmt none st) fi none [] false body).slots = body from
                  by rw [(hch.2.2.2 hrw).1]; simp [compact_someSlots]]
                simp [someSlots]
          | typeSwitchStmt ini ax body =>
              have hbody : sizeOf body ≤ n := by simp at hl; omega
              have hch := ih body hbody (count .Stmt none st) fi none [] false
              have hoob1 : (tryLoop cfg (count .Stmt none st) fi none [] false body).st.oob = st.oob := by
                rw [hch.1 (fun pa h => nomatch h)]
                exact oob_count _ _ _
              simp only [tryLoop]
              refine ⟨fun hinv => ?_, fun hd => ?_, fun hdf ha => ?_, fun hrw => ?_⟩
              · rw [(ih rest hrest _ _ _ _ _).1 (fun pa _ => hcat _ _)]
                exact hoob1
              · exact (ih rest hrest _ _ _ _ _).2.1 hd
              · refine (ih rest hrest _ _ _ _ _).2.2.1 hdf ?_
                intro o ho
                rcases List.mem_append.1 ho with h9 | h9
                · exact ha o h9
                · simp at h9; subst h9; rfl
              · rcases (ih rest hrest _ _ _ _ _).2.2.2 hrw with ⟨h1, h2, h3⟩
                refine ⟨?_, h2, h3.trans ((hch.2.2.2 hrw).2.2)⟩
                rw [h1, show compact (tryLoop cfg (count .Stmt none st) fi none [] false body).slots = body from
                  by rw [(hch.2.2.2 hrw).1]; simp [compact_someSlots]]
                simp [someSlots]
          | ifStmt ini cond body els =>
              have hbody : sizeOf body ≤ n := by simp at hl; omega
              have hch := ih body hbody (count .If none (count .Stmt none st)) fi none [] false
              have hoobRB : (tryLoop cfg (count .If none (count .Stmt none st)) fi none [] false body).st.oob = st.oob := by
                rw [hch.1 (fun pa h => nomatch h)]
                simp [oob_count]
              have hmodRB : cfg.rewrite = false → (tryLoop cfg (count .If none (count .Stmt none st)) fi none [] false body).fi.modified = fi.modified :=
                fun hrw => (hch.2.2.2 hrw).2.2
              have hbody1 : cfg.rewrite = false → compact (tryLoop cfg (count .If none (count .Stmt none st)) fi none [] false body).slots = body :=
                fun hrw => by rw [(hch.2.2.2 hrw).1]; simp [compact_someSlots]
              have hElse :
                  (tryElse cfg (tryLoop cfg (count .If none (count .Stmt none st)) fi none [] false body).st (tryLoop cfg (count .If none (count .Stmt none st)) fi none [] false body).fi els).2.1.oob = st.oob ∧
                  (cfg.rewrite = false → (tryElse cfg (tryLoop cfg (count .If none (count .Stmt none st)) fi none [] false body).st (tryLoop cfg (count .If none (count .Stmt none st)) fi none [] false body).fi els).2.2.modified = fi.modified) ∧
                  (cfg.rewrite = false → (tryElse cfg (tryLoop cfg (count .If none (count .Stmt none st)) fi none [] false body).st (tryLoop cfg (count .If none (count .Stmt none st)) fi none [] false body).fi els).1 = els) := by
                cases els with
                | none => exact ⟨hoobRB, hmodRB, fun _ => rfl⟩
                | some e =>
                    cases e
                    case blockStmt bl =>
                      have hbl : sizeOf bl ≤ n := by simp at hl; omega
                      have hch2 := ih bl hbl (tryLoop cfg (count .If none (count .Stmt none st)) fi none [] false body).st (tryLoop cfg (count .If none (count .Stmt none st)) fi none [] false body).fi none [] false
                      refine ⟨?_, ?_, ?_⟩
                      · show (tryLoop cfg (tryLoop cfg (count .If none (count .Stmt none st)) fi none [] false body).st (tryLoop cfg (count .If none (count .Stmt none st)) fi none [] false body).fi none [] false bl).st.oob = st.oob
                        rw [hch2.1 (fun pa h => nomatch h)]
                        exact hoobRB
                      · intro hrw
                        exact ((hch2.2.2.2 hrw).2.2).trans (hmodRB hrw)
                      · intro hrw
                        show (some (Stmt.blockStmt (compact (tryLoop cfg (tryLoop cfg (count .If none (count .Stmt none st)) fi none [] false body).st (tryLoop cfg (count .If none (count .Stmt none st)) fi none [] false body).fi none [] false bl).slots)) : Option Stmt)
                          = some (.blockStmt bl)
                        rw [(hch2.2.2.2 hrw).1]
                        simp [compact_someSlots]
                    all_goals exact ⟨hoobRB, hmodRB, fun _ => rfl⟩
              rcases hElse with ⟨hoobE, hmodE, helsE⟩
              unfold tryLoop
              try simp only []
              split
              case isTrue htest =>
                refine ⟨fun hinv => ?_, fun hd => ?_, fun hdf ha => ?_, fun hrw => ?_⟩
                · rw [(ih rest hrest _ _ _ _ _).1 (fun pa _ => hcat _ _)]
                  simp [apply_ite GState.oob, oob_count, isTryHandler_oob, hoobE]
                · exact (ih rest hrest _ _ _ _ _).2.1 hd
                · refine (ih rest hrest _ _ _ _ _).2.2.1 hdf ?_
                  intro o ho
                  rcases List.mem_append.1 ho with h9 | h9
                  · exact ha o h9
                  · simp at h9; subst h9; rfl
                · rcases (ih rest hrest _ _ _ _ _).2.2.2 hrw with ⟨h1, h2, h3⟩
                  refine ⟨?_, h2, ?_⟩
                  · rw [h1, hbody1 hrw, helsE hrw]
                    simp [someSlots]
                  · rw [h3]
                    simp [isTryHandler_modified, hmodE hrw]
              case isFalse htest =>
                split
                case isTrue hb1 =>
                  split
                  case isTrue hh =>
                    split
                    case isTrue hcr =>
                      refine ⟨fun hinv => ?_, fun hd => ?_, fun hdf ha => ?_, fun hrw => ?_⟩
                      · have hpa : ∃ pa, prev = some pa := by
                          rcases prev with _ | pa
                          · rw [Bool.and_eq_true, isErrAssign_none] at hb1
                            exact absurd hb1.2 (by simp)
                          · exact ⟨pa, rfl⟩
                        rcases hpa with ⟨pa, hpa⟩
                        have hacc : acc.isEmpty = false := by
                          rcases acc with _ | ⟨a0, arest⟩
                          · exact absurd (hinv pa hpa) (by simp)
                          · rfl
                        rw [(ih rest hrest _ _ _ _ _).1 (fun pb _ => hcat _ _)]
                        simp [hacc, apply_ite GState.oob, oob_count, isTryHandler_oob, hoobE]
                      · exact (ih rest hrest _ _ _ _ _).2.1 rfl
                      · rw [(ih rest hrest _ _ _ _ _).2.1 rfl] at hdf
                        simp at hdf
                      · rw [hrw] at hcr
                        cases hcr
                    case isFalse hcr =>
                      refine ⟨fun hinv => ?_, fun hd => ?_, fun hdf ha => ?_, fun hrw => ?_⟩
                      · rw [(ih rest hrest _ _ _ _ _).1 (fun pa _ => hcat _ _)]
                        simp [apply_ite GState.oob, oob_count, isTryHandler_oob, hoobE]
                      · exact (ih rest hrest _ _ _ _ _).2.1 hd
                      · refine (ih rest hrest _ _ _ _ _).2.2.1 hdf ?_
                        intro o ho
                        rcases List.mem_append.1 ho with h9 | h9
                        · exact ha o h9
                        · simp at h9; subst h9; rfl
                      · rcases (ih rest hrest _ _ _ _ _).2.2.2 hrw with ⟨h1, h2, h3⟩
                        refine ⟨?_, h2, ?_⟩
                        · rw [h1, hbody1 hrw, helsE hrw]
                          simp [someSlots]
                        · rw [h3]
                          simp [isTryHandler_modified, hmodE hrw]
                  case isFalse hh =>
                    refine ⟨fun hinv => ?_, fun hd => ?_, fun hdf ha => ?_, fun hrw => ?_⟩
                    · rw [(ih rest hrest _ _ _ _ _).1 (fun pa _ => hcat _ _)]
                      simp [apply_ite GState.oob, oob_count, isTryHandler_oob, hoobE]
                    · exact (ih rest hrest _ _ _ _ _).2.1 hd
                    · refine (ih rest hrest _ _ _ _ _).2.2.1 hdf ?_
                      intro o ho
                      rcases List.mem_append.1 ho with h9 | h9
                      · exact ha o h9
                      · simp at h9; subst h9; rfl
                    · rcases (ih rest hrest _ _ _ _ _).2.2.2 hrw with ⟨h1, h2, h3⟩
                      refine ⟨?_, h2, ?_⟩
                      · rw [h1, hbody1 hrw, helsE hrw]
                        simp [someSlots]
                      · rw [h3]
                        simp [isTryHandler_modified, hmodE hrw]
                case isFalse hb1 =>
                  split
                  case isTrue hb2 =>
                    split
                    case isTrue hh =>
                      split
                      case isTrue hcr =>
                        refine ⟨fun hinv => ?_, fun hd => ?_, fun hdf ha => ?_, fun hrw => ?_⟩
                        · rw [(ih rest hrest _ _ _ _ _).1 (fun pa _ => hcat _ _)]
                          simp [apply_ite GState.oob, oob_count, isTryHandler_oob, hoobE]
                        · exact (ih rest hrest _ _ _ _ _).2.1 hd
                        · refine (ih rest hrest _ _ _ _ _).2.2.1 hdf ?_
                          intro o ho
                          rcases List.mem_append.1 ho with h9 | h9
                          · exact ha o h9
                          · simp at h9; subst h9; rfl
                        · rw [hrw] at hcr
                          cases hcr
                      case isFalse hcr =>
                        refine ⟨fun hinv => ?_, fun hd => ?_, fun hdf ha => ?_, fun hrw => ?_⟩
                        · rw [(ih rest hrest _ _ _ _ _).1 (fun pa _ => hcat _ _)]
                          simp [apply_ite GState.oob, oob_count, isTryHandler_oob, hoobE]
                        · exact (ih rest hrest _ _ _ _ _).2.1 hd
                        · refine (ih rest hrest _ _ _ _ _).2.2.1 hdf ?_
                          intro o ho
                          rcases List.mem_append.1 ho with h9 | h9
                          · exact ha o h9
                          · simp at h9; subst h9; rfl
                        · rcases (ih rest hrest _ _ _ _ _).2.2.2 hrw with ⟨h1, h2, h3⟩
                          refine ⟨?_, h2, ?_⟩
                          · rw [h1, hbody1 hrw, helsE hrw]
                            simp [someSlots]
                          · rw [h3]
                            simp [isTryHandler_modified, hmodE hrw]
                    case isFalse hh =>
                      refine ⟨fun hinv => ?_, fun hd => ?_, fun hdf ha => ?_, fun hrw => ?_⟩
                      · rw [(ih rest hrest _ _ _ _ _).1 (fun pa _ => hcat _ _)]
                        simp [apply_ite GState.oob, oob_count, isTryHandler_oob, hoobE]
                      · exact (ih rest hrest _ _ _ _ _).2.1 hd
                      · refine (ih rest hrest _ _ _ _ _).2.2.1 hdf ?_
                        intro o ho
                        rcases List.mem_append.1 ho with h9 | h9
                        · exact ha o h9
                        · simp at h9; subst h9; rfl
                      · rcases (ih rest hrest _ _ _ _ _).2.2.2 hrw with ⟨h1, h2, h3⟩
                        refine ⟨?_, h2, ?_⟩
                        · rw [h1, hbody1 hrw, helsE hrw]
                          simp [someSlots]
                        · rw [h3]
                          simp [isTryHandler_modified, hmodE hrw]
                  case isFalse hb2 =>
                    refine ⟨fun hinv => ?_, fun hd => ?_, fun hdf ha => ?_, fun hrw => ?_⟩
                    · rw [(ih rest hrest _ _ _ _ _).1 (fun pa _ => hcat _ _)]
                      simp [apply_ite GState.oob, oob_count, isTryHandler_oob, hoobE]
                    · exact (ih rest hrest _ _ _ _ _).2.1 hd
                    · refine (ih rest hrest _ _ _ _ _).2.2.1 hdf ?_
                      intro o ho
                      rcases List.mem_append.1 ho with h9 | h9
                      · exact ha o h9
                      · simp at h9; subst h9; rfl
                    · rcases (ih rest hrest _ _ _ _ _).2.2.2 hrw with ⟨h1, h2, h3⟩
                      refine ⟨?_, h2, ?_⟩
                      · rw [h1, hbody1 hrw, helsE hrw]
                        simp [someSlots]
                      · rw [h3]
                        simp [isTryHandler_modified, hmodE hrw]

/-! ### Corollaries of the master lemma: block and file level -/

/-- When the loop finishes with `dirty = false`, no slot of an initially
all-`some` accumulator was tombstoned (the promise made at `compact`). -/
theorem tryLoop_slots_isSome (cfg : Config) (st : GState) (fi : FuncInfo) (l : StmtList)
    (hd : (tryLoop cfg st fi none [] false l).dirty = false) :
    ∀ o ∈ (tryLoop cfg st fi none [] false l).slots, o.isSome = true :=
  (tryLoop_master cfg (sizeOf l) l (Nat.le_refl _) st fi none [] false).2.2.1 hd
    (fun _ ho => nomatch ho)

/-- `tryBlock` never trips the `b.List[i-1]` bounds flag: the loop starts
with `p = nil`, and `p` is only non-nil when a slot for it is in the
accumulator. -/
theorem tryBlock_oob (cfg : Config) (st : GState) (fi : FuncInfo) (b : StmtList) :
    (tryBlock cfg st fi b).2.1.oob = st.oob :=
  (tryLoop_master cfg (sizeOf b) b (Nat.le_refl _) st fi none [] false).1
    (fun _ h => nomatch h)

/-- With `-r` off (list mode) `tryBlock` returns the block unchanged and
leaves the `modified` flag alone. -/
theorem tryBlock_norewrite (cfg : Config) (hrw : cfg.rewrite = false) (st : GState)
    (fi : FuncInfo) (b : StmtList) :
    (tryBlock cfg st fi b).1 = b ∧ (tryBlock cfg st fi b).2.2.modified = fi.modified := by
  have h := (tryLoop_master cfg (sizeOf b) b (Nat.le_refl _) st fi none [] false).2.2.2 hrw
  refine ⟨?_, h.2.2⟩
  show compact (tryLoop cfg st fi none [] false b).slots = b
  rw [h.1]
  simp [compact_someSlots]

/-- The end-of-function `sharedLast` emission loop only appends records. -/
theorem oob_foldl_sharedLast (sl : List Expr) (st : GState) :
    (sl.foldl (fun s2 e => count .SharedLast (some (.exprNode e)) s2) st).oob = st.oob := by
  induction sl generalizing st with
  | nil => rfl
  | cons e rest ih => rw [List.foldl_cons, ih, oob_count]

/-- `tryFuncDecl` preserves the bounds flag. -/
theorem tryFuncDecl_oob (cfg : Config) (st : GState) (ftype : FuncType)
    (body : Option StmtList) :
    (tryFuncDecl cfg st ftype body).2.1.oob = st.oob := by
  unfold tryFuncDecl
  split
  case isTrue h =>
    cases body with
    | some bs =>
        simp only []
        split
        · split
          · rw [oob_foldl_sharedLast, tryBlock_oob, oob_count, oob_count]
          · rw [tryBlock_oob, oob_count, oob_count]
        · rw [tryBlock_oob, oob_count, oob_count]
    | none => rw [oob_count]
  case isFalse h => rw [oob_count]

/-- `tryFile` preserves the bounds flag. -/
theorem tryFile_oob (cfg : Config) (decls : List Decl) : ∀ (st : GState) (m : Bool),
    (tryFile cfg st decls m).2.1.oob = st.oob := by
  induction decls with
  | nil => intro st m; rfl
  | cons d rest ih =>
      intro st m
      cases d with
      | funcDecl name ftype body =>
          simp only [tryFile]
          rw [ih, tryFuncDecl_oob]
      | otherDecl t =>
          simp only [tryFile]
          rw [ih]

/-- With `-r` off, `tryFuncDecl` returns the body unchanged and reports
the function unmodified. -/
theorem tryFuncDecl_norewrite (cfg : Config) (hrw : cfg.rewrite = false) (st : GState)
    (ftype : FuncType) (body : Option StmtList) :
    (tryFuncDecl cfg st ftype body).1 = body ∧ (tryFuncDecl cfg st ftype body).2.2 = false := by
  unfold tryFuncDecl
  split
  case isTrue h =>
    cases body with
    | some bs =>
        simp only []
        have hb := tryBlock_norewrite cfg hrw (count .FuncError none (count .Func none st))
          ⟨false, some []⟩ bs
        exact ⟨by rw [hb.1], hb.2⟩
    | none => exact ⟨rfl, rfl⟩
  case isFalse h => exact ⟨rfl, rfl⟩

/-- With `-r` off, `tryFile` returns the declaration list unchanged and
never sets the `*modified` out-parameter. -/
theorem tryFile_norewrite (cfg : Config) (hrw : cfg.rewrite = false) (decls : List Decl) :
    ∀ (st : GState) (m : Bool),
      (tryFile cfg st decls m).1 = decls ∧ (tryFile cfg st decls m).2.2 = m := by
  induction decls with
  | nil => intro st m; exact ⟨rfl, rfl⟩
  | cons d rest ih =>
      intro st m
      cases d with
      | funcDecl name ftype body =>
          simp only [tryFile]
          have hf := tryFuncDecl_norewrite cfg hrw st ftype body
          rw [hf.1, hf.2]
          simp only [Bool.or_false]
          have hr := ih ((tryFuncDecl cfg st ftype body).2.1) m
          rw [hr.1, hr.2]
          exact ⟨rfl, rfl⟩
      | otherDecl t =>
          simp only [tryFile]
          have hr := ih st m
          rw [hr.1, hr.2]
          exact ⟨rfl, rfl⟩

/-! ### Claim C9 -/

/-- C9: with rewriting disabled (list mode), the walk mutates nothing.
Per block, the returned statement list is the input and the function
info keeps its `modified` flag; per function declaration, the returned
body is the input body and the per-function modified result is false;
per file, the declaration list comes back unchanged and the `*modified`
out-parameter keeps its incoming value.  The counters and recorded
positions in the returned `GState` are the only effects. -/
theorem c9_theorem (cfg : Config) (hrw : cfg.rewrite = false) :
    (∀ (st : GState) (fi : FuncInfo) (b : StmtList),
       (tryBlock cfg st fi b).1 = b ∧ (tryBlock cfg st fi b).2.2.modified = fi.modified) ∧
    (∀ (st : GState) (ftype : FuncType) (body : Option StmtList),
       (tryFuncDecl cfg st ftype body).1 = body ∧ (tryFuncDecl cfg st ftype body).2.2 = false) ∧
    (∀ (st : GState) (decls : List Decl) (m : Bool),
       (tryFile cfg st decls m).1 = decls ∧ (tryFile cfg st decls m).2.2 = m) :=
  ⟨fun st fi b => tryBlock_norewrite cfg hrw st fi b,
   fun st ftype body => tryFuncDecl_norewrite cfg hrw st ftype body,
   fun st decls m => tryFile_norewrite cfg hrw decls st m⟩

/-- C9, witness: the default list-mode configuration leaves a concrete
file (one error-returning function whose body holds two try-candidates)
bit-for-bit unchanged and the modified flag false. -/
theorem c9_witness :
    (tryBlock cfgList st0 fiStart exTwoWrapBlock).1 = exTwoWrapBlock ∧
    (tryFile cfgList st0 [Decl.funcDecl "f" exErrSig (some exTwoWrapBlock)] false).1
      = [Decl.funcDecl "f" exErrSig (some exTwoWrapBlock)] ∧
    (tryFile cfgList st0 [Decl.funcDecl "f" exErrSig (some exTwoWrapBlock)] false).2.2 = false := by
  have h := c9_theorem cfgList rfl
  exact ⟨(h.1 st0 fiStart exTwoWrapBlock).1,
    (h.2.2 st0 [Decl.funcDecl "f" exErrSig (some exTwoWrapBlock)] false).1,
    (h.2.2 st0 [Decl.funcDecl "f" exErrSig (some exTwoWrapBlock)] false).2⟩

/-! ### Claim C10 -/

/-- C10: the separate-statement rewrite of `b.List[i-1]` is always in
bounds.  A nil preceding statement is never accepted as an error
assignment (first conjunct), so when the preceding-statement branch
fires the accumulator holds the slot of that statement and `i >= 1`:
the out-of-bounds flag, which the model raises exactly when that store
would run with `i = 0`, is never raised by `tryBlock`, `tryFuncDecl`
or `tryFile` from any starting state, and in particular stays `false`
on a whole run from the initial state. -/
theorem c10_theorem :
    (∀ ename : String, isErrAssign none ename = false) ∧
    (∀ (cfg : Config) (st : GState) (fi : FuncInfo) (b : StmtList),
       (tryBlock cfg st fi b).2.1.oob = st.oob) ∧
    (∀ (cfg : Config) (st : GState) (decls : List Decl) (m : Bool),
       (tryFile cfg st decls m).2.1.oob = st.oob) ∧
    (∀ (cfg : Config) (decls : List Decl) (m : Bool),
       (tryFile cfg st0 decls m).2.1.oob = false) :=
  ⟨fun ename => isErrAssign_none ename,
   fun cfg st fi b => tryBlock_oob cfg st fi b,
   fun cfg st decls m => tryFile_oob cfg decls st m,
   fun cfg decls m => tryFile_oob cfg decls st0 m⟩


/-! ### Claim C7: supported kinds, completeness, and properties of equal -/

/-- The discriminant of the dynamic type switch in `equal`: one value
per `ast.Expr` variant the model carries. -/
def exprKind : Expr → Nat
  | .ident _ => 0
  | .ellipsis _ => 1
  | .basicLit _ _ => 2
  | .funcLit _ => 3
  | .compositeLit _ _ _ => 4
  | .parenExpr _ => 5
  | .selectorExpr _ _ => 6
  | .indexExpr _ _ => 7
  | .sliceExpr _ _ _ _ _ => 8
  | .typeAssertExpr _ _ => 9
  | .callExpr _ _ _ => 10
  | .starExpr _ => 11
  | .unaryExpr _ _ => 12
  | .binaryExpr _ _ _ => 13
  | .keyValueExpr _ _ => 14
  | .arrayType _ _ => 15
  | .structType _ _ => 16
  | .funcType _ _ => 17
  | .interfaceType _ _ => 18
  | .mapType _ _ => 19
  | .chanType _ _ => 20

mutual

/-- An expression built purely from the node kinds the `equal` switch
recognizes (everything except function literals, whose case body is
empty).  With `strict = true` the composite, struct and interface
literal forms must additionally be complete (no elided fields), the
extra condition `equal` imposes on those three forms. -/
def supportedP (strict : Bool) : Expr → Bool
  | .ident _ => true
  | .ellipsis elt =>
      (match elt with | none => true | some a => supportedP strict a)
  | .basicLit _ _ => true
  | .funcLit _ => false
  | .compositeLit t elts inc =>
      (!strict || !inc) &&
      (match t with | none => true | some a => supportedP strict a) &&
      supportedListP strict elts
  | .parenExpr e => supportedP strict e
  | .selectorExpr e _ => supportedP strict e
  | .indexExpr e i => supportedP strict e && supportedP strict i
  | .sliceExpr e lo hi mx _ =>
      supportedP strict e &&
      (match lo with | none => true | some a => supportedP strict a) &&
      (match hi with | none => true | some a => supportedP strict a) &&
      (match mx with | none => true | some a => supportedP strict a)
  | .typeAssertExpr e t =>
      supportedP strict e &&
      (match t with | none => true | some a => supportedP strict a)
  | .callExpr f args _ => supportedP strict f && supportedListP strict args
  | .starExpr e => supportedP strict e
  | .unaryExpr _ e => supportedP strict e
  | .binaryExpr a _ b => supportedP strict a && supportedP strict b
  | .keyValueExpr k v => supportedP strict k && supportedP strict v
  | .arrayType len elt =>
      (match len with | none => true | some a => supportedP strict a) &&
      supportedP strict elt
  | .structType fs inc =>
      (!strict || !inc) &&
      (match fs with | none => true | some a => supportedFieldsP strict a)
  | .funcType ps rs =>
      (match ps with | none => true | some a => supportedFieldsP strict a) &&
      (match rs with | none => true | some a => supportedFieldsP strict a)
  | .interfaceType ms inc =>
      (!strict || !inc) &&
      (match ms with | none => true | some a => supportedFieldsP strict a)
  | .mapType k v => supportedP strict k && supportedP strict v
  | .chanType _ v => supportedP strict v
termination_by structural x => x

/-- Every element of the list is supported. -/
def supportedListP (strict : Bool) : ExprList → Bool
  | .nil => true
  | .cons x rest => supportedP strict x && supportedListP strict rest
termination_by structural l => l

/-- Every type and tag of every field is supported. -/
def supportedFieldsP (strict : Bool) : FieldList → Bool
  | .nil => true
  | .cons (.mk _ t tg) rest =>
      (match t with | none => true | some a => supportedP strict a) &&
      (match tg with | none => true | some a => supportedP strict a) &&
      supportedFieldsP strict rest
termination_by structural fl => fl

end

/-- Built purely from kinds the `equal` switch recognizes. -/
def supportedKinds : Expr → Bool := supportedP false

/-- Supported kinds with every composite/struct/interface literal
complete. -/
def supportedComplete : Expr → Bool := supportedP true

theorem equalIdents_refl (ns : List String) : equalIdents ns ns = true := by
  induction ns with
  | nil => rfl
  | cons x rest ih => simp [equalIdents, ih]

mutual

/-- Self-comparison computes the strict supportedness predicate: `equal
x x` is true exactly when `x` is built from recognized kinds and every
composite, struct and interface literal in it is complete. -/
theorem equal_self (x : Expr) : equal x x = supportedP true x := by
  cases x with
  | ident nm =>
      show (nm == nm) = true
      simp
  | ellipsis elt =>
      cases elt with
      | none => rfl
      | some a =>
          show equal a a = supportedP true a
          exact equal_self a
  | basicLit k v =>
      show (k == k && v == v) = true
      simp
  | funcLit t => rfl
  | compositeLit t elts inc =>
      cases t with
      | none =>
          show (!inc && !inc && true && equalLists elts elts)
            = ((!true || !inc) && true && supportedListP true elts)
          rw [equalLists_self elts]
          cases inc <;> rfl
      | some a =>
          show (!inc && !inc && equal a a && equalLists elts elts)
            = ((!true || !inc) && supportedP true a && supportedListP true elts)
          rw [equal_self a, equalLists_self elts]
          cases inc <;> rfl
  | parenExpr e =>
      show equal e e = supportedP true e
      exact equal_self e
  | selectorExpr e sel =>
      show (equal e e && sel == sel) = supportedP true e
      rw [equal_self e]
      simp
  | indexExpr e i =>
      show (equal e e && equal i i) = (supportedP true e && supportedP true i)
      rw [equal_self e, equal_self i]
  | sliceExpr e lo hi mx s3 =>
      cases lo with
      | none =>
          cases hi with
          | none =>
              cases mx with
              | none =>
                  show (equal e e && true && true && true && s3 == s3)
                    = (supportedP true e && true && true && true)
                  rw [equal_self e]
                  simp
              | some c =>
                  show (equal e e && true && true && equal c c && s3 == s3)
                    = (supportedP true e && true && true && supportedP true c)
                  rw [equal_self e, equal_self c]
                  simp
          | some b =>
              cases mx with
              | none =>
                  show (equal e e && true && equal b b && true && s3 == s3)
                    = (supportedP true e && true && supportedP true b && true)
                  rw [equal_self e, equal_self b]
                  simp
              | some c =>
                  show (equal e e && true && equal b b && equal c c && s3 == s3)
                    = (supportedP true e && true && supportedP true b && supportedP true c)
                  rw [equal_self e, equal_self b, equal_self c]
                  simp
      | some a =>
          cases hi with
          | none =>
              cases mx with
              | none =>
                  show (equal e e && equal a a && true && true && s3 == s3)
                    = (supportedP true e && supportedP true a && true && true)
                  rw [equal_self e, equal_self a]
                  simp
              | some c =>
                  show (equal e e && equal a a && true && equal c c && s3 == s3)
                    = (supportedP true e && supportedP true a && true && supportedP true c)
                  rw [equal_self e, equal_self a, equal_self c]
                  simp
          | some b =>
              cases mx with
              | none =>
                  show (equal e e && equal a a && equal b b && true && s3 == s3)
                    = (supportedP true e && supportedP true a && supportedP true b && true)
                  rw [equal_self e, equal_self a, equal_self b]
                  simp
              | some c =>
                  show (equal e e && equal a a && equal b b && equal c c && s3 == s3)
                    = (supportedP true e && supportedP true a && supportedP true b &&
                        supportedP true c)
                  rw [equal_self e, equal_self a, equal_self b, equal_self c]
                  simp
  | typeAssertExpr e t =>
      cases t with
      | none =>
          show (equal e e && true) = (supportedP true e && true)
          rw [equal_self e]
      | some a =>
          show (equal e e && equal a a) = (supportedP true e && supportedP true a)
          rw [equal_self e, equal_self a]
  | callExpr f args ell =>
      show (equal f f && equalLists args args && ell == ell)
        = (supportedP true f && supportedListP true args)
      rw [equal_self f, equalLists_self args]
      simp
  | starExpr e =>
      show equal e e = supportedP true e
      exact equal_self e
  | unaryExpr op e =>
      show (op == op && equal e e) = supportedP true e
      rw [equal_self e]
      simp
  | binaryExpr a op b =>
      show (equal a a && op == op && equal b b) = (supportedP true a && supportedP true b)
      rw [equal_self a, equal_self b]
      simp
  | keyValueExpr k v =>
      show (equal k k && equal v v) = (supportedP true k && supportedP true v)
      rw [equal_self k, equal_self v]
  | arrayType len elt =>
      cases len with
      | none =>
          show (true && equal elt elt) = (true && supportedP true elt)
          rw [equal_self elt]
      | some a =>
          show (equal a a && equal elt elt) = (supportedP true a && supportedP true elt)
          rw [equal_self a, equal_self elt]
  | structType fs inc =>
      cases fs with
      | none =>
          show (!inc && !inc && true) = ((!true || !inc) && true)
          cases inc <;> rfl
      | some a =>
          show (!inc && !inc && equalFieldLists a a) = ((!true || !inc) && supportedFieldsP true a)
          rw [equalFieldLists_self a]
          cases inc <;> rfl
  | funcType ps rs =>
      cases ps with
      | none =>
          cases rs with
          | none => rfl
          | some b =>
              show (true && equalFieldLists b b) = (true && supportedFieldsP true b)
              rw [equalFieldLists_self b]
      | some a =>
          cases rs with
          | none =>
              show (equalFieldLists a a && true) = (supportedFieldsP true a && true)
              rw [equalFieldLists_self a]
          | some b =>
              show (equalFieldLists a a && equalFieldLists b b)
                = (supportedFieldsP true a && supportedFieldsP true b)
              rw [equalFieldLists_self a, equalFieldLists_self b]
  | interfaceType ms inc =>
      cases ms with
      | none =>
          show (!inc && !inc && true) = ((!true || !inc) && true)
          cases inc <;> rfl
      | some a =>
          show (!inc && !inc && equalFieldLists a a) = ((!true || !inc) && supportedFieldsP true a)
          rw [equalFieldLists_self a]
          cases inc <;> rfl
  | mapType k v =>
      show (equal k k && equal v v) = (supportedP true k && supportedP true v)
      rw [equal_self k, equal_self v]
  | chanType d v =>
      show (d == d && equal v v) = supportedP true v
      rw [equal_self v]
      simp

/-- Element-wise self-comparison. -/
theorem equalLists_self (l : ExprList) : equalLists l l = supportedListP true l := by
  cases l with
  | nil => rfl
  | cons x rest =>
      show (equal x x && equalLists rest rest) = (supportedP true x && supportedListP true rest)
      rw [equal_self x, equalLists_self rest]

/-- Field-wise self-comparison. -/
theorem equalFieldLists_self (fl : FieldList) :
    equalFieldLists fl fl = supportedFieldsP true fl := by
  cases fl with
  | nil => rfl
  | cons f rest =>
      rcases f with ⟨ns, t, tg⟩
      rcases t with _ | a <;> rcases tg with _ | b
      · show (equalIdents ns ns && true && true && equalFieldLists rest rest)
          = (true && true && supportedFieldsP true rest)
        rw [equalFieldLists_self rest, equalIdents_refl]
        simp
      · show (equalIdents ns ns && true && equal b b && equalFieldLists rest rest)
          = (true && supportedP true b && supportedFieldsP true rest)
        rw [equalFieldLists_self rest, equalIdents_refl, equal_self b]
        simp
      · show (equalIdents ns ns && equal a a && true && equalFieldLists rest rest)
          = (supportedP true a && true && supportedFieldsP true rest)
        rw [equalFieldLists_self rest, equalIdents_refl, equal_self a]
        simp
      · show (equalIdents ns ns && equal a a && equal b b && equalFieldLists rest rest)
          = (supportedP true a && supportedP true b && supportedFieldsP true rest)
        rw [equalFieldLists_self rest, equalIdents_refl, equal_self a, equal_self b]
        simp

end

theorem equal_kinds_differ (x y : Expr) (h : exprKind x ≠ exprKind y) :
    equal x y = false := by
  cases x <;> cases y <;> first | rfl | exact absurd rfl h

theorem equal_funcLit (t : Expr) (y : Expr) :
    equal (.funcLit t) y = false ∧ equal y (.funcLit t) = false := by
  refine ⟨rfl, ?_⟩
  cases y <;> rfl

/-- C7, counterexample to the literal claim: an incomplete composite
literal is built purely from supported node kinds (the composite
literal case is in the switch) yet `equal` rejects it against itself,
so reflexivity on supported kinds alone fails. -/
theorem c7_counterexample :
    supportedKinds (Expr.compositeLit none ExprList.nil true) = true ∧
    equal (Expr.compositeLit none ExprList.nil true)
      (Expr.compositeLit none ExprList.nil true) = false :=
  ⟨rfl, rfl⟩

/-- C7, amended: `equal` is reflexive on expressions built purely from
supported kinds in which every composite, struct and interface literal
is complete; it returns false whenever the two kinds differ; a function
literal is never reported equal to anything, on either side; and an
incomplete composite, struct or interface literal is not even equal to
itself. -/
theorem c7_theorem :
    (∀ x : Expr, supportedComplete x = true → equal x x = true) ∧
    (∀ x y : Expr, exprKind x ≠ exprKind y → equal x y = false) ∧
    (∀ t y : Expr, equal (.funcLit t) y = false ∧ equal y (.funcLit t) = false) ∧
    (∀ (t : Option Expr) (elts : ExprList),
       equal (.compositeLit t elts true) (.compositeLit t elts true) = false) ∧
    (∀ fs : Option FieldList, equal (.structType fs true) (.structType fs true) = false) ∧
    (∀ ms : Option FieldList, equal (.interfaceType ms true) (.interfaceType ms true) = false) :=
  ⟨fun x hs => (equal_self x).trans hs,
   equal_kinds_differ, equal_funcLit,
   fun t elts => by cases t <;> rfl,
   fun fs => by cases fs <;> rfl,
   fun ms => by cases ms <;> rfl⟩

/-- A complete composite literal with a type and one key-value element,
exercising the reflexivity clause. -/
def exEqRefl : Expr :=
  .compositeLit (some (.ident "T"))
    (.cons (.keyValueExpr (.ident "a") (.basicLit .INT "1")) .nil) false

/-- C7, witness: reflexivity at a concrete complete composite literal,
and kind mismatch at a concrete identifier/literal pair. -/
theorem c7_witness :
    equal exEqRefl exEqRefl = true ∧
    equal (.ident "a") (.basicLit .INT "0") = false := by
  have h := c7_theorem
  exact ⟨h.1 exEqRefl rfl, h.2.1 (.ident "a") (.basicLit .INT "0") (by decide)⟩


end Tryhard
